import Mathlib

/-!
Verification of the navio-core BLSCT transaction factory, transaction
verifier, bulletproofs range-proof logic and set-membership proof layer,
against a shallow embedding of the C++ sources.

Modelling conventions:
* machine amounts (`CAmount`, int64) are modelled as `Int`; `Scalar`
  amounts round-trip through `GetUint64`, which is the identity on the
  amounts the wallet handles, so inputs carry their `Int` amount directly;
* `std::map` containers are modelled as association lists with unique keys
  (an insert updates the first occurrence of the key or appends);
* cryptographic primitives that the claims do not inspect (signatures,
  hashes, the multi-exponentiation accumulator of the batch verifier) are
  model parameters: ordinary function arguments of the embedded code;
* C++ exceptions are modelled with `Except`, `std::optional` with `Option`.
-/

namespace TxFactory

/-- Token identifier; the base token `TokenId()` is modelled as `0`. -/
abbrev TokenId := Nat

/-- The per-token accumulator entry of `TxFactoryBase` (`nAmounts`). -/
structure AmountsEntry where
  nFromOutputs : Int
  nFromInputs : Int
deriving DecidableEq, Repr

def AmountsEntry.zero : AmountsEntry := ⟨0, 0⟩

/-- `blsct::UnsignedInput` restricted to the fields the amount accounting
reads: the value and the staked-commitment flag (outpoint, gamma and
spending key do not influence which inputs are consumed or the totals). -/
structure UnsignedInput where
  value : Int
  is_staked_commitment : Bool
deriving DecidableEq, Repr

/-- Lookup with default in an association list (`std::map` read access). -/
def mget {α : Type} (m : List (Nat × α)) (k : Nat) (d : α) : α :=
  (m.lookup k).getD d

/-- `std::map` write access: update the entry of `k` (first occurrence) via
`f`, inserting `f d` when `k` is absent. -/
def msetD {α : Type} (k : Nat) (f : α → α) (d : α) : List (Nat × α) → List (Nat × α)
  | [] => [(k, f d)]
  | (k', v) :: rest => if k = k' then (k, f v) :: rest else (k', v) :: msetD k f d rest

/-- The mutable state of a `TxFactoryBase`: per-token candidate inputs,
per-token candidate output amounts, and the `nAmounts` totals. -/
structure FactoryState where
  vInputs : List (TokenId × List UnsignedInput)
  vOutputs : List (TokenId × List Int)
  nAmounts : List (TokenId × AmountsEntry)
deriving DecidableEq, Repr

def FactoryState.empty : FactoryState := ⟨[], [], []⟩

/-- `TxFactoryBase::AddInput` (txfactory_base.cpp:40-53): append the input
to the token's candidate list, add its amount to the token's
`nFromInputs`, and return `true`. -/
def AddInput (st : FactoryState) (amount : Int) (token_id : TokenId)
    (stakedCommitment : Bool) : FactoryState × Bool :=
  let st1 : FactoryState :=
    { st with vInputs := msetD token_id (fun l => l ++ [⟨amount, stakedCommitment⟩]) [] st.vInputs }
  let st2 : FactoryState :=
    { st1 with nAmounts := (msetD token_id
        (fun e => ⟨e.nFromOutputs, e.nFromInputs + amount⟩) AmountsEntry.zero st1.nAmounts) }
  (st2, true)

/-- `TxFactoryBase::AddOutput` (txfactory_base.cpp:16-38): create the output
(its amount reduced by a marginal-weight fee when `fSubtractFeeFromAmount`),
add the created amount to the token's `nFromOutputs` and record the output.
`outWeight` models `GetTransactioOutputWeight(out.out)` (not under src/),
`rate` models `BLSCT_DEFAULT_FEE`. -/
def AddOutput (rate outWeight : Int) (st : FactoryState) (nAmount : Int)
    (token_id : TokenId) (fSubtractFeeFromAmount : Bool) : FactoryState :=
  let nFee : Int := if fSubtractFeeFromAmount then outWeight * rate else 0
  let st1 : FactoryState :=
    { st with nAmounts := (msetD token_id
        (fun e => ⟨e.nFromOutputs + (nAmount - nFee), e.nFromInputs⟩) AmountsEntry.zero st.nAmounts) }
  { st1 with vOutputs := msetD token_id (fun l => l ++ [nAmount - nFee]) [] st1.vOutputs }

/-- A consumed transaction input of the built transaction; the token and
value are kept so the balance of the result can be stated (the C++ `CTxIn`
refers to them through its outpoint). -/
structure TxInput where
  token : TokenId
  value : Int
deriving DecidableEq, Repr

/-- An output of the built transaction (`CTxOut` value and token). -/
structure TxOutput where
  value : Int
  token : TokenId
deriving DecidableEq, Repr

/-- The built transaction, restricted to its amount content. -/
structure TxM where
  vin : List TxInput
  vout : List TxOutput
deriving DecidableEq, Repr

inductive CreateTransactionType where
  | NORMAL
  | STAKED_COMMITMENT
  | STAKED_COMMITMENT_UNSTAKE
deriving DecidableEq, Repr

def isStakedType : CreateTransactionType → Bool
  | .STAKED_COMMITMENT => true
  | .STAKED_COMMITMENT_UNSTAKE => true
  | .NORMAL => false

/-- One inner input-consumption loop of `BuildTx` (txfactory_base.cpp:83-96
and 100-114): walk the token's candidate list, skip inputs `keep` rejects,
append each kept input and add its value to the running total, and break
once the running total exceeds the threshold (the check runs after the
input was already consumed). -/
def consumeLoop (keep : UnsignedInput → Bool) (threshold : Int) :
    Int → List UnsignedInput → Int × List UnsignedInput
  | acc, [] => (acc, [])
  | acc, i :: rest =>
    if keep i then
      let acc1 := acc + i.value
      if acc1 > threshold then (acc1, [i])
      else
        let r := consumeLoop keep threshold acc1 rest
        (r.1, i :: r.2)
    else consumeLoop keep threshold acc rest

/-- Both consumption phases of `BuildTx` for one token: staked-commitment
inputs first (only for staking transaction types), then the remaining
non-staked inputs, the second phase continuing from the first phase's
running total.  The break threshold is `nFromOutputs + nFee` for every
token (the code adds the plain `nFee`, not the per-token fee, there). -/
def consumeToken (st : FactoryState) (type : CreateTransactionType) (nFee : Int)
    (tok : TokenId) (ins : List UnsignedInput) :
    (Int × List UnsignedInput) × (Int × List UnsignedInput) :=
  let threshold := (mget st.nAmounts tok AmountsEntry.zero).nFromOutputs + nFee
  let p1 :=
    if isStakedType type then consumeLoop (fun i => i.is_staked_commitment) threshold 0 ins
    else (0, [])
  let p2 := consumeLoop (fun i => !i.is_staked_commitment) threshold p1.1 ins
  (p1, p2)

/-- The consumption result for one token of the accumulator (the token's
entry of the loop's `mapInputs` and the two lists of consumed inputs). -/
def consumedFor (st : FactoryState) (type : CreateTransactionType) (nFee : Int)
    (tok : TokenId) : (Int × List UnsignedInput) × (Int × List UnsignedInput) :=
  consumeToken st type nFee tok (mget st.vInputs tok [])

/-- `mapInputs[tok]` after both consumption phases of one iteration. -/
def mapInputsAt (st : FactoryState) (type : CreateTransactionType) (nFee : Int)
    (tok : TokenId) : Int :=
  (consumedFor st type nFee tok).2.1

/-- The per-token fee of the sufficiency check (txfactory_base.cpp:117):
the fee applies to the base token only. -/
def feeOf (nFee : Int) (tok : TokenId) : Int := if tok = 0 then nFee else 0

/-- The sufficiency check of one `BuildTx` iteration (txfactory_base.cpp:
116-124): some token's consumed inputs fall short of its requested outputs
plus its share of the fee. -/
def insufficientAt (st : FactoryState) (type : CreateTransactionType) (nFee : Int) : Bool :=
  st.nAmounts.any (fun p =>
    decide (mapInputsAt st type nFee p.1 < p.2.nFromOutputs + feeOf nFee p.1))

/-- The outputs already added to the factory, emitted once per iteration
(txfactory_base.cpp:65-71; the code emits them once before the loop into
`this->tx`, which each iteration copies). -/
def baseOutputs (st : FactoryState) : List TxOutput :=
  st.vOutputs.flatMap (fun p => p.2.map (fun v => ⟨v, p.1⟩))

/-- The change outputs of one iteration (txfactory_base.cpp:126-135): one
output per token with nonzero leftover `mapInputs - nFromOutputs - tokenFee`. -/
def changeOutputs (st : FactoryState) (type : CreateTransactionType) (nFee : Int) :
    List TxOutput :=
  ((st.nAmounts.map (fun p =>
      (p.1, mapInputsAt st type nFee p.1 - p.2.nFromOutputs - feeOf nFee p.1))).filter
    (fun c => !(c.2 == 0))).map (fun c => ⟨c.2, c.1⟩)

/-- The consumed inputs of one iteration in transaction order: every
token's staked-phase inputs, then every token's non-staked-phase inputs. -/
def consumedVin (st : FactoryState) (type : CreateTransactionType) (nFee : Int) :
    List TxInput :=
  st.vInputs.flatMap (fun p =>
      (consumeToken st type nFee p.1 p.2).1.2.map (fun i => ⟨p.1, i.value⟩)) ++
  st.vInputs.flatMap (fun p =>
      (consumeToken st type nFee p.1 p.2).2.2.map (fun i => ⟨p.1, i.value⟩))

/-- The transaction one `BuildTx` iteration assembles before the fee check:
the consumed inputs, the already-added outputs and the change outputs. -/
def builtCore (st : FactoryState) (type : CreateTransactionType) (nFee : Int) : TxM :=
  ⟨consumedVin st type nFee, baseOutputs st ++ changeOutputs st type nFee⟩

/-- One iteration of the `while (true)` loop of `TxFactoryBase::BuildTx`
(txfactory_base.cpp:73-148) at assumed fee `nFee`.  `weight` models
`GetTransactionWeight` (not under src/) and `rate` models
`BLSCT_DEFAULT_FEE`.  Returns `Sum.inl none` when some token has
insufficient funds (the build aborts with `std::nullopt`), `Sum.inl (some
tx)` when the assumed fee matches the fee recomputed from the built
transaction's weight (the fee-marker output is appended and the
transaction returned), and `Sum.inr newFee` when the loop restarts with
the recomputed fee. -/
def buildStep (weight : TxM → Int) (rate : Int) (type : CreateTransactionType)
    (st : FactoryState) (nFee : Int) : Sum (Option TxM) Int :=
  if insufficientAt st type nFee then Sum.inl none
  else if nFee = weight (builtCore st type nFee) * rate then
    Sum.inl (some ⟨(builtCore st type nFee).vin, (builtCore st type nFee).vout ++ [⟨nFee, 0⟩]⟩)
  else Sum.inr (weight (builtCore st type nFee) * rate)

/-- The `while (true)` loop of `BuildTx`, indexed by fuel: `none` means the
loop is still running after `fuel` iterations (the code itself has no
iteration bound), `some none` that it returned `std::nullopt`, and `some
(some tx)` that it returned the finalized transaction. -/
def buildTxLoop (weight : TxM → Int) (rate : Int) (type : CreateTransactionType)
    (st : FactoryState) : Nat → Int → Option (Option TxM)
  | 0, _ => none
  | fuel + 1, nFee =>
    match buildStep weight rate type st nFee with
    | Sum.inl r => some r
    | Sum.inr f' => buildTxLoop weight rate type st fuel f'

/-- `TxFactoryBase::BuildTx`: the fee loop entered at fee 0. -/
def BuildTx (weight : TxM → Int) (rate : Int) (type : CreateTransactionType)
    (st : FactoryState) (fuel : Nat) : Option (Option TxM) :=
  buildTxLoop weight rate type st fuel 0

/-- `blsct::InputCandidates` restricted to the fields `CreateTransaction`
reads. -/
structure InputCandidate where
  amount : Int
  token_id : TokenId
  is_staked_commitment : Bool
deriving DecidableEq, Repr

/-- The `std::runtime_error`s thrown by `CreateTransaction`
(txfactory_base.cpp:168, 189, 191): "A minimum of X is required to stake"
and "Not enough staked coins". -/
inductive BuildError where
  | belowMinStake
  | notEnoughStaked
deriving DecidableEq, Repr

/-- The staked amount among a candidate list. -/
def stakedSum (candidates : List InputCandidate) : Int :=
  ((candidates.filter (fun c => c.is_staked_commitment)).map (fun c => c.amount)).sum

/-- Add a list of candidates to a factory through `AddInput`. -/
def addAll (st : FactoryState) (candidates : List InputCandidate) : FactoryState :=
  candidates.foldl (fun s c => (AddInput s c.amount c.token_id c.is_staked_commitment).1) st

/-- `TxFactoryBase::CreateTransaction` (txfactory_base.cpp:153-206).
Exceptions are modelled as `Except.error`; a normal return delivers
`BuildTx`'s result.  Both `fSubtractFeeFromAmount` flags are the literal
`false` of the source. -/
def CreateTransaction (weight : TxM → Int) (rate : Int)
    (inputCandidates : List InputCandidate) (nAmount : Int) (token_id : TokenId)
    (type : CreateTransactionType) (minStake : Int) (fuel : Nat) :
    Except BuildError (Option (Option TxM)) :=
  if type = .STAKED_COMMITMENT then
    let inputFromStakedCommitments := stakedSum inputCandidates
    let st := addAll FactoryState.empty inputCandidates
    if nAmount + inputFromStakedCommitments < minStake then Except.error .belowMinStake
    else
      let st := AddOutput rate 0 st (nAmount + inputFromStakedCommitments) token_id false
      Except.ok (BuildTx weight rate type st fuel)
  else
    let kept := inputCandidates.filter (fun c =>
      !c.is_staked_commitment ||
        decide (type = .STAKED_COMMITMENT_UNSTAKE ∨ type = .STAKED_COMMITMENT))
    let inputFromStakedCommitments := stakedSum kept
    let st := addAll FactoryState.empty kept
    if type = .STAKED_COMMITMENT_UNSTAKE then
      if inputFromStakedCommitments - nAmount < 0 then Except.error .notEnoughStaked
      else if inputFromStakedCommitments - nAmount < minStake ∧
          inputFromStakedCommitments - nAmount > 0 then Except.error .belowMinStake
      else
        let st :=
          if inputFromStakedCommitments - nAmount > 0 then
            AddOutput rate 0 st (inputFromStakedCommitments - nAmount) token_id false
          else st
        let st := AddOutput rate 0 st nAmount token_id false
        Except.ok (BuildTx weight rate type st fuel)
    else
      let st := AddOutput rate 0 st nAmount token_id false
      Except.ok (BuildTx weight rate type st fuel)

/-- Total value the transaction's inputs consume for one token. -/
def vinSum (tx : TxM) (tok : TokenId) : Int :=
  (tx.vin.map (fun i => if i.token = tok then i.value else 0)).sum

/-- Total value the transaction's outputs carry for one token. -/
def voutSum (tx : TxM) (tok : TokenId) : Int :=
  (tx.vout.map (fun o => if o.token = tok then o.value else 0)).sum

/-- Total output amount the factory holds for one token. -/
def outputsSum (st : FactoryState) (tok : TokenId) : Int :=
  (mget st.vOutputs tok []).sum

/-- First-match association-list lookup (`std::map::find`). -/
def mfind {α : Type} : List (Nat × α) → Nat → Option α
  | [], _ => none
  | (k', v) :: rest, k => if k = k' then some v else mfind rest k

/-- Total value of a list of unsigned inputs. -/
def valSum (l : List UnsignedInput) : Int := (l.map (fun i => i.value)).sum

/-- The concrete weight model of the C1 counterexample: the transaction
weight grows with the number of inputs and outputs (as the serialized
weight of the C++ transaction does). -/
def cexWeight : TxM → Int := fun tx => (tx.vin.length : Int) + tx.vout.length

/-- A factory holding one base-token input of 100 and one requested
base-token output of 50. -/
def cexState : FactoryState :=
  ⟨[(0, [⟨100, false⟩])], [(0, [50])], [(0, ⟨50, 100⟩)]⟩

/-- The transaction the C1 counterexample build returns: the whole input
of 100 is consumed, 47 comes back as change and 3 is the fee output. -/
def cexTx : TxM := ⟨[⟨0, 100⟩], [⟨50, 0⟩, ⟨47, 0⟩, ⟨3, 0⟩]⟩

/-- The weight model of the C9 counterexample: weight proportional to the
number of outputs (spec 4.9: "output weight (and hence fee) is monotone in
a small number of discrete components (number of inputs/outputs)"). -/
def oscWeight : TxM → Int := fun tx => tx.vout.length

/-- A factory holding one base-token input of 52 and one requested
base-token output of 50.  At fee 2 the change is 0 (no change output,
weight 1, fee 1); at fee 1 the change is 1 (change output present,
weight 2, fee 2): the assumed fee oscillates between 1 and 2 forever. -/
def oscState : FactoryState :=
  ⟨[(0, [⟨52, false⟩])], [(0, [50])], [(0, ⟨50, 52⟩)]⟩

/-- The C9 counterexample proposition: no amount of fuel finishes the
`BuildTx` fee loop on `oscState`. -/
def oscLoopsForever : Prop :=
  ∀ fuel : Nat, BuildTx oscWeight 1 CreateTransactionType.NORMAL oscState fuel = none

end TxFactory

namespace Verification

/-- Token identifier of the verifier's generator factory; the default
`TokenId()` (base token) is 0. -/
abbrev TokId := Nat

/-- A message of the batched signature check: an input hash, an output
hash, or one of the two domain-separation constants
`blsct::Common::BLSCTFEE` / `blsct::Common::BLSCTBALANCE`. -/
inductive MsgM where
  | inHash (h : Nat)
  | outHash (h : Nat)
  | feeDomain
  | balanceDomain
deriving DecidableEq, Repr

/-- A parsed output predicate (`blsct::ParsedPredicate`), by kind; `other`
covers predicates none of the four recognizers accepts. -/
inductive PredicateM (Pt : Type) where
  | mintToken (pk : Pt) (amount : Int)
  | createToken (pk : Pt)
  | mintNft (pk : Pt) (nftId : Nat)
  | payFee (pk : Pt)
  | other
deriving DecidableEq

/-- `ParsedPredicate::IsPayFeePredicate` on an output's optional predicate
(a default-constructed predicate answers false). -/
def isPayFeePredicate {Pt : Type} : Option (PredicateM Pt) → Bool
  | some (.payFee _) => true
  | _ => false

/-- A range proof as the verifier consumes it: its value commitments `Vs`
plus an abstract remainder standing for the other proof elements. -/
structure RangeProofM (Pt : Type) where
  Vs : List Pt
  body : Nat
deriving DecidableEq

/-- `bulletproofs_plus::RangeProofWithSeed`: a proof together with the
asset seed and minimum-value offset used to regenerate its generators. -/
structure RangeProofWithSeedM (Pt : Type) where
  proof : RangeProofM Pt
  seed : TokId
  minValue : Int
deriving DecidableEq

/-- The BLSCT payload of an output. -/
structure BlsctDataM (Pt : Type) where
  ephemeralKey : Pt
  rangeProof : RangeProofM Pt
deriving DecidableEq

/-- `CTxOut` restricted to what `VerifyTx` reads; `hashId` models
`out.GetHash()`. -/
structure CTxOutM (Pt : Type) where
  nValue : Int
  tokenId : TokId
  predicate : Option (PredicateM Pt)
  scriptIsFee : Bool
  scriptIsUnspendable : Bool
  isBLSCT : Bool
  blsctData : BlsctDataM Pt
  stakedCommitmentRangeProof : Option (RangeProofM Pt)
  hashId : Nat
deriving DecidableEq

/-- `CTxIn` restricted to what `VerifyTx` reads; `hashId` models
`in.GetHash()`. -/
structure CTxInM where
  prevout : Nat
  hashId : Nat
deriving DecidableEq, Repr

structure CTransactionM (Pt : Type) where
  isCoinBase : Bool
  vin : List CTxInM
  vout : List (CTxOutM Pt)
  txSig : Nat
deriving DecidableEq

/-- The prior unspent output an input refers to (`Coin`): its spending key
and the value-commitment list `Vs` of its range proof.  The list can be
empty — e.g. the coin of a spent transparent output, whose BLSCT data is
default-constructed — and then the `Vs[0]` read of verification.h line 62
throws. -/
structure CoinM (Pt : Type) where
  spendingKey : Pt
  rangeProofVs : List Pt
deriving DecidableEq

/-- How `blsct::VerifyTx` fails: `invalid r` models
`return state.Invalid(..., r)` (the function returns false carrying one
reason label), while `exception w` models a C++ exception of message `w`
escaping the function (no label is attached).  The only throwing operation
inside `VerifyTx` is the bounds-checked `Elements::operator[]` access
`rangeProof.Vs[0]` (verification.h lines 62 and 105), which throws on an
empty `Vs`; its message is modelled by the same
`"Elements index out of range"` token the range-proof development uses. -/
inductive TxFailure where
  | invalid (label : String)
  | exception (what : String)
deriving DecidableEq, Repr

/-- The external collaborators of `blsct::VerifyTx`, modelled as
parameters: the per-token generator `G`, the token ids minted predicates
derive, predicate execution against the view, the batched signature check,
the batched range-proof check, and the `MoneyRange` bound. -/
structure VerifyEnv (Pt : Type) where
  genG : TokId → Pt
  mintTokenId : Pt → TokId
  mintNftTokenId : Pt → Nat → TokId
  execPredicate : PredicateM Pt → Bool
  sigVerifyBatch : List Pt → List MsgM → Nat → Bool
  rpVerify : List (RangeProofWithSeedM Pt) → Bool
  maxMoney : Int

def moneyRange {Pt : Type} (env : VerifyEnv Pt) (v : Int) : Bool :=
  decide (0 ≤ v) && decide (v ≤ env.maxMoney)

/-- The verifier's running collection: the fee seen so far, the balance
key accumulator, the (public key, message) pairs and the proofs. -/
structure CollectAcc (Pt : Type) where
  nFee : Int
  balanceKey : Pt
  vPubKeys : List Pt
  vMessages : List MsgM
  vProofs : List (RangeProofWithSeedM Pt)

/-- The fixed taxonomy of consensus rejection reasons. -/
def rejectionLabels : List String :=
  ["bad-inputs-unknown", "bad-input-unknown", "failed-to-execute-predicate",
   "spendable-output-with-public-value", "more-than-one-fee-output",
   "failed-signature-check", "failed-rangeproof-check"]

/-- Every failure `VerifyTx` can produce: the seven labelled
`state.Invalid` rejections plus the unlabelled out-of-range exception of
the two `Vs[0]` reads. -/
def allowedFailures : List TxFailure :=
  [.invalid "bad-inputs-unknown", .invalid "bad-input-unknown",
   .invalid "failed-to-execute-predicate",
   .invalid "spendable-output-with-public-value",
   .invalid "more-than-one-fee-output",
   .invalid "failed-signature-check", .invalid "failed-rangeproof-check",
   .exception "Elements index out of range"]

/-- The predicate phase of the per-output body of `blsct::VerifyTx`'s
output loop (verification.h lines 70-96): predicate collection by kind,
then predicate execution against the view, rejecting with
`failed-to-execute-predicate` when execution fails. -/
def processPredicate {Pt : Type} [AddCommGroup Pt] (env : VerifyEnv Pt)
    (acc : CollectAcc Pt) (out : CTxOutM Pt) : Except TxFailure (CollectAcc Pt) :=
  match out.predicate with
    | none => Except.ok acc
    | some p =>
        let acc1 :=
          match p with
          | .mintToken pk amount =>
              { acc with vPubKeys := acc.vPubKeys ++ [pk],
                         vMessages := acc.vMessages ++ [.outHash out.hashId],
                         balanceKey := acc.balanceKey + amount • env.genG (env.mintTokenId pk) }
          | .createToken pk =>
              { acc with vPubKeys := acc.vPubKeys ++ [pk],
                         vMessages := acc.vMessages ++ [.outHash out.hashId] }
          | .mintNft pk nftId =>
              { acc with vPubKeys := acc.vPubKeys ++ [pk],
                         vMessages := acc.vMessages ++ [.outHash out.hashId],
                         balanceKey := acc.balanceKey +
                           (1 : Int) • env.genG (env.mintNftTokenId pk nftId) }
          | .payFee pk =>
              if out.scriptIsFee then
                { acc with vMessages := acc.vMessages ++ [.feeDomain],
                           vPubKeys := acc.vPubKeys ++ [pk] }
              else acc
          | .other => acc
        if env.execPredicate p then Except.ok acc1
        else Except.error (TxFailure.invalid "failed-to-execute-predicate")

/-- The remainder of the per-output body after the predicate phase
(verification.h lines 98-127): either the confidential-output collection
(ephemeral key, output hash, range proof, balance-key subtraction of
`Vs[0]`, optional staked-commitment sub-proof) or the transparent-output
constraints (spendability, single fee output within the money range,
pay-fee recording, balance-key subtraction of the plaintext value).  The
`out.blsctData.rangeProof.Vs[0]` read at line 105 throws when `Vs` is
empty, before any labelled rejection can be issued for this output; the
entries the C++ code pushes at lines 101-103 before that read are
irrelevant to the result, since the exception aborts the whole call. -/
def processOutputRest {Pt : Type} [AddCommGroup Pt] (env : VerifyEnv Pt) (minStake : Int)
    (acc : CollectAcc Pt) (out : CTxOutM Pt) : Except TxFailure (CollectAcc Pt) :=
  if out.isBLSCT then
    match out.blsctData.rangeProof.Vs with
    | [] => Except.error (TxFailure.exception "Elements index out of range")
    | vs0 :: _ =>
      let acc2 : CollectAcc Pt :=
        { acc with vPubKeys := acc.vPubKeys ++ [out.blsctData.ephemeralKey],
                   vMessages := acc.vMessages ++ [.outHash out.hashId],
                   vProofs := acc.vProofs ++ [⟨out.blsctData.rangeProof, out.tokenId, 0⟩],
                   balanceKey := acc.balanceKey - vs0 }
      match out.stakedCommitmentRangeProof with
      | some srp =>
          Except.ok ({ acc2 with vProofs := acc2.vProofs ++ [⟨{ srp with Vs := [vs0] }, 0, minStake⟩] })
      | none => Except.ok acc2
  else
    if ¬ out.scriptIsUnspendable ∧ out.nValue > 0 then
      Except.error (TxFailure.invalid "spendable-output-with-public-value")
    else if acc.nFee > 0 ∨ ¬ (moneyRange env out.nValue = true) then
      Except.error (TxFailure.invalid "more-than-one-fee-output")
    else if out.nValue = 0 then Except.ok acc
    else
      let acc3 :=
        if isPayFeePredicate out.predicate then { acc with nFee := out.nValue } else acc
      Except.ok { acc3 with balanceKey := acc3.balanceKey - out.nValue • env.genG out.tokenId }

def processOutput {Pt : Type} [AddCommGroup Pt] (env : VerifyEnv Pt) (minStake : Int)
    (acc : CollectAcc Pt) (out : CTxOutM Pt) : Except TxFailure (CollectAcc Pt) :=
  processPredicate env acc out >>= fun acc1 => processOutputRest env minStake acc1 out

/-- The input pass of `VerifyTx` (verification.h lines 45-64): the
block-reward contribution, then each input's coin (failing with
`bad-input-unknown` when the view cannot resolve it), spending key, input
hash and value-commitment addition.  The
`coin.out.blsctData.rangeProof.Vs[0]` read at line 62 throws when the
coin's `Vs` is empty — reachable, since a transparent zero-value output
passes the verifier's output loop via the `out.nValue == 0` continue and
can later be spent; the pubkey and message pushed at lines 58-60 before
the read are irrelevant to the result, since the exception aborts the
whole call. -/
def collectInputs {Pt : Type} [AddCommGroup Pt] (env : VerifyEnv Pt)
    (view : Nat → Option (CoinM Pt)) (tx : CTransactionM Pt) (blockReward : Int) :
    Except TxFailure (CollectAcc Pt) :=
  let bk0 : Pt := if blockReward > 0 then blockReward • env.genG 0 else 0
  let acc0 : CollectAcc Pt := ⟨0, bk0, [], [], []⟩
  if tx.isCoinBase then Except.ok acc0
  else
    tx.vin.foldlM (fun acc i =>
      match view i.prevout with
      | none => Except.error (TxFailure.invalid "bad-input-unknown")
      | some coin =>
        match coin.rangeProofVs with
        | [] => Except.error (TxFailure.exception "Elements index out of range")
        | vs0 :: _ => Except.ok
            { acc with vPubKeys := acc.vPubKeys ++ [coin.spendingKey],
                       vMessages := acc.vMessages ++ [MsgM.inHash i.hashId],
                       balanceKey := acc.balanceKey + vs0 }) acc0

/-- `CCoinsViewCache::HaveInputs`: true for a coinbase, else every input's
prior output must resolve in the view. -/
def haveInputs {Pt : Type} (view : Nat → Option (CoinM Pt)) (tx : CTransactionM Pt) : Bool :=
  tx.isCoinBase || tx.vin.all (fun i => (view i.prevout).isSome)

/-- The whole collection pass of `VerifyTx`: inputs, outputs, then the
final (balance key, BLSCTBALANCE) pair. -/
def collect {Pt : Type} [AddCommGroup Pt] (env : VerifyEnv Pt)
    (view : Nat → Option (CoinM Pt)) (tx : CTransactionM Pt)
    (blockReward minStake : Int) : Except TxFailure (CollectAcc Pt) := do
  let acc ← collectInputs env view tx blockReward
  let acc ← tx.vout.foldlM (processOutput env minStake) acc
  Except.ok { acc with vMessages := acc.vMessages ++ [MsgM.balanceDomain],
                       vPubKeys := acc.vPubKeys ++ [acc.balanceKey] }

/-- `blsct::VerifyTx` (verification.h lines 32-145): the structural pass
collecting keys, messages and proofs, then the batched signature check,
then the batched range-proof check; `Except.ok ()` models `return true`,
`Except.error (.invalid r)` models `return state.Invalid(..., r)` and
`Except.error (.exception w)` models a C++ exception of message `w`
escaping the function. -/
def VerifyTx {Pt : Type} [AddCommGroup Pt] (env : VerifyEnv Pt)
    (view : Nat → Option (CoinM Pt)) (tx : CTransactionM Pt)
    (blockReward minStake : Int) : Except TxFailure Unit :=
  if ¬ haveInputs view tx then Except.error (TxFailure.invalid "bad-inputs-unknown")
  else
    match collect env view tx blockReward minStake with
    | .error e => .error e
    | .ok acc =>
      if ¬ (env.sigVerifyBatch acc.vPubKeys acc.vMessages tx.txSig = true) then
        Except.error (TxFailure.invalid "failed-signature-check")
      else if ¬ (env.rpVerify acc.vProofs = true) then
        Except.error (TxFailure.invalid "failed-rangeproof-check")
      else Except.ok ()

def wEnv : VerifyEnv Int :=
  ⟨fun _ => 0, fun _ => 0, fun _ _ => 0, fun _ => true, fun _ _ _ => true, fun _ => true, 1000⟩

def wView : Nat → Option (CoinM Int) := fun _ => none

def wTx : CTransactionM Int := ⟨true, [], [], 0⟩

/-- A confidential output whose serialized range proof carries an empty
value-commitment list `Vs`. -/
def xOutEmptyVs : CTxOutM Int := ⟨0, 0, none, false, false, true, ⟨0, ⟨[], 0⟩⟩, none, 0⟩

/-- A coinbase transaction carrying `xOutEmptyVs` as its only output. -/
def xTxEmptyVsOut : CTransactionM Int := ⟨true, [], [xOutEmptyVs], 0⟩

/-- A view resolving every outpoint to a coin whose range proof has no
value commitments — the coin of a spent transparent zero-value output. -/
def xViewEmptyVsCoin : Nat → Option (CoinM Int) := fun _ => some ⟨0, []⟩

/-- A non-coinbase transaction spending one such coin, with no outputs. -/
def xTxSpendOne : CTransactionM Int := ⟨false, [⟨0, 0⟩], [], 0⟩

end Verification

namespace SetMem

/-- Modelled from the spec: `SetMemProofProver`'s proof object.  The
prover/verifier sources (blsct/set_mem_proof/set_mem_proof_prover) are not
under src/ — only their test suite is — so, following spec 4.7, the proof
is modelled as the binding it commits to: the exact ordered commitment
list `Ys`, the position of the target inside it, the literal target
commitment `sigma`, the caller-supplied Fiat-Shamir seed and the auxiliary
domain-separation message `etaPhi`. -/
structure SetMemProofM (Pt S M : Type) where
  Ys : List Pt
  idx : Nat
  sigma : Pt
  etaFiatShamir : S
  etaPhi : M
deriving DecidableEq

/-- Modelled from the spec (4.7): `Prove(setup, Ys, sigma, value,
blindingFactor, etaFiatShamir, etaPhi)` produces a proof bound to the
exact list `Ys`, to the position of the literal element `sigma` in it (the
list's length when `sigma` is absent, so that no position check can
succeed), and to both seeds; the opening `(m, f)` enters only the algebra
the binding stands for. -/
def SetMemProve {Pt S M : Type} [DecidableEq Pt] (setup : Unit) (Ys : List Pt) (sigma : Pt)
    (m f : S) (etaFiatShamir : S) (etaPhi : M) : SetMemProofM Pt S M :=
  ⟨Ys, Ys.findIdx (fun y => decide (y = sigma)), sigma, etaFiatShamir, etaPhi⟩

/-- Modelled from the spec (4.7): `Verify(setup, Ys, etaFiatShamir,
etaPhi, proof)` recomputes the binding and checks consistency: the proof
must have been made against exactly this ordered list, with the same
Fiat-Shamir seed and eta-phi message, and its target must be the literal
list element at the bound position. -/
def SetMemVerify {Pt S M : Type} [DecidableEq Pt] [DecidableEq S] [DecidableEq M]
    (setup : Unit) (Ys : List Pt) (etaFiatShamir : S) (etaPhi : M)
    (proof : SetMemProofM Pt S M) : Bool :=
  decide (proof.Ys = Ys) && decide (proof.etaFiatShamir = etaFiatShamir) &&
    decide (proof.etaPhi = etaPhi) && decide (Ys[proof.idx]? = some proof.sigma)

end SetMem

namespace Bulletproofs

/-- Elementwise sum of two scalar vectors (`Elements` +). -/
def vadd {S : Type} [CommRing S] (a b : List S) : List S := List.zipWith (· + ·) a b

/-- Elementwise difference of two scalar vectors (`Elements` -). -/
def vsub {S : Type} [CommRing S] (a b : List S) : List S := List.zipWith (· - ·) a b

/-- Elementwise (Hadamard) product of two scalar vectors (`Elements` *). -/
def vmul {S : Type} [CommRing S] (a b : List S) : List S := List.zipWith (· * ·) a b

/-- A scalar times every element (`Elements * Scalar`). -/
def smulv {S : Type} [CommRing S] (x : S) (a : List S) : List S := a.map (fun v => x * v)

/-- `(a * b).Sum()`: the inner product of two scalar vectors. -/
def inner {S : Type} [CommRing S] (a b : List S) : S := (vmul a b).sum

/-- The two sides of the `(60)` check exactly as
`bulletproofs::RangeProofLogic::Prove` computes them (part_003 lines
183-236): from `aL`, the blinding vectors `sL`/`sR`, the precomputed
`z^{2+i}·2^j` vector, the `y` powers and the challenges `z`, `x`, it
builds `l0 = aL - z·1^n`, `l1 = sL`, `r0 = y^n ∘ (aR + z·1^n) +
z_pow_twos` with `aR = aL - 1^n`, `r1 = y^n ∘ sR`, the coefficients
`t1 = ⟨l0,r1⟩ + ⟨l1,r0⟩`, `t2 = ⟨l1,r1⟩`, and returns
`(t_hat, t(x)) = (⟨l0 + l1·x, r0 + r1·x⟩, t0 + t1·x + t2·x²)`. -/
def proveStep60 {S : Type} [CommRing S] (n : Nat) (aL sL sR z_pow_twos y_pows : List S)
    (z x : S) : S × S :=
  let zs := List.replicate n z
  let aR := vsub aL (List.replicate n (1 : S))
  let l0 := vsub aL zs
  let l1 := sL
  let r0 := vadd (vmul y_pows (vadd aR zs)) z_pow_twos
  let r1 := vmul y_pows sR
  let t1 := inner l0 r1 + inner l1 r0
  let t2 := inner l1 r1
  let l := vadd l0 (smulv x l1)
  let r := vadd r0 (smulv x r1)
  let t_hat := inner l r
  let t0 := inner l0 r0
  (t_hat, t0 + t1 * x + t2 * x * x)

/-- The `(60)` equality check of `Prove` (part_003 lines 239-240): the
throwing branch compares `t_hat` against `t0 + t1·x + t2·x²`. -/
def step60Check {S : Type} [CommRing S] [DecidableEq S] (n : Nat)
    (aL sL sR z_pow_twos y_pows : List S) (z x : S) : Except String S :=
  let r := proveStep60 n aL sL sR z_pow_twos y_pows z x
  if r.1 ≠ r.2 then Except.error "equality didn't hold in (60)"
  else Except.ok r.1

/-- One proof with its rederived transcript
(`bulletproofs::RangeProofWithTranscript`) as the batched verifier
consults it structurally: the IPA round elements `Ls`/`Rs`, and an
abstract remainder standing for the other proof and transcript fields. -/
structure RPTranscriptM (Pt : Type) where
  Ls : List Pt
  Rs : List Pt
  body : Nat
deriving DecidableEq

/-- The per-proof verification task of `RangeProofLogic::VerifyProofs`
(part_003 lines 296-365): the task fails outright when `Ls` and `Rs`
differ in length, else it evaluates the proof's multi-exponentiation
accumulator check — modelled by the abstract predicate `innerCheck`,
since the accumulator mixes verifier-drawn random weights with the
generator subsets and group arithmetic, none of which the batching
structure inspects. -/
def perProofCheck {Pt : Type} (innerCheck : RPTranscriptM Pt → Bool)
    (p : RPTranscriptM Pt) : Bool :=
  (p.Ls.length == p.Rs.length) && innerCheck p

/-- `RangeProofLogic::VerifyProofs` (part_003 lines 283-374): one task per
proof transcript, every task runs, and the batch result is the
conjunction of all task results (`if (!fut.get()) return false`). -/
def VerifyProofs {Pt : Type} (innerCheck : RPTranscriptM Pt → Bool)
    (proof_transcripts : List (RPTranscriptM Pt)) : Bool :=
  proof_transcripts.all (perProofCheck innerCheck)

/-- `range_proof::GammaSeed`: the tagged union of a point seed (blinding
material derived by salted hashing) and an explicit vector of blinding
factors. -/
inductive GammaSeedM (S Pt : Type) where
  | point (p : Pt)
  | vec (v : List S)

def firstPow2GeGo (n : Nat) : Nat → Nat → Nat
  | 0, acc => acc
  | f + 1, acc => if n ≤ acc then acc else firstPow2GeGo n f (2 * acc)

/-- `blsct::Common::GetFirstPowerOf2GreaterOrEqTo` (not under src/; the
name describes it): the least power of two that is ≥ n, by doubling
from 1. -/
def firstPow2Ge (n : Nat) : Nat := firstPow2GeGo n n 1

/-- Zero-padding of the value vector up to the padded size (the `while
(vs.Size() < num_input_values_power_of_2)` loop, part_003 lines 112-115). -/
def padZeros {S : Type} [CommRing S] (l : List S) (m : Nat) : List S :=
  l ++ List.replicate (m - l.length) 0

/-- The value-commitment loop of `Prove` (part_003 lines 127-132):
`Vs[i] = G·vsOriginal[i] + H·gammas[i]`, walking the padded original
values; reading a gamma past the end of the gamma vector
(`Elements::operator[]` out of range) fails. -/
def commitLoop {S Pt : Type} [CommRing S] [AddCommGroup Pt] [Module S Pt] (G H : Pt) :
    List S → List S → Except String (List Pt)
  | [], _ => Except.ok []
  | v :: vrest, gammas =>
    match gammas with
    | [] => Except.error "Elements index out of range"
    | g :: grest =>
      (commitLoop G H vrest grest).map (fun rest => (v • G + g • H) :: rest)

/-- The validation, gamma-derivation, padding and value-commitment phase
of `bulletproofs::RangeProofLogic::Prove` (part_003 lines 74-132).
`ValidateParameters` (not under src/) is modelled from the spec as
requiring at least one value.  A point seed derives one gamma per padded
value (`GetHashWithSalt(100 + i)`, `i` up to the padded count); a vector
seed must match the unpadded value count exactly and is not padded.  The
`minValue` offset is subtracted from the working copy of the values only;
the commitments use the original values (the source commits
`vsOriginal[i]`), so it does not enter this phase's output. -/
def proveCommitments {S Pt : Type} [CommRing S] [DecidableEq S] [AddCommGroup Pt]
    [Module S Pt] (pointHash : Pt → Nat → S) (G H : Pt) (nonce : GammaSeedM S Pt)
    (vs : List S) (minValue : S) : Except String (List Pt) :=
  if vs.length = 0 then Except.error "ValidateParameters: no input value"
  else
    let m := firstPow2Ge vs.length
    match nonce with
    | .point p =>
        let gammas := (List.range m).map (fun i => pointHash p (100 + i))
        commitLoop G H (padZeros vs m) gammas
    | .vec v =>
        if vs.length ≠ v.length then
          Except.error "size of vs does not match size of gammas"
        else commitLoop G H (padZeros vs m) v

/-- `bulletproofs::AmountRecoveryRequest` (part_003 lines 16-34),
restricted to the fields `RecoverAmounts` reads: the request id, the
asset seed selecting the generator pair, the transcript challenges `x`
and `z`, the proof's `Vs`/`Ls`/`Rs`, the response scalars `mu` and
`tau_x`, and the owner's `GammaSeed` nonce. -/
structure AmountRecoveryReqM (S Pt : Type) where
  id : Nat
  seed : Nat
  x : S
  z : S
  Vs : List Pt
  Ls : List Pt
  Rs : List Pt
  mu : S
  tau_x : S
  nonce : GammaSeedM S Pt

/-- `range_proof::RecoveredData`: the request id, the recovered amount,
the blinding factor of `Vs[0]` and the embedded message's two channels
(`msg1` rides inside `alpha`, `msg2` inside `tau1`). -/
structure RecoveredDataM (S : Type) where
  id : Nat
  amount : Nat
  gamma : S
  msg1 : Nat
  msg2 : S
deriving DecidableEq

/-- The external pieces of amount recovery that are not under src/,
modelled as parameters: the salted hashes of a point and of a vector seed
(`GetHashWithSalt`), the integer representation of a scalar that the
cipher splits into `msg1 << 64 | amount`, scalar inversion, and the
per-seed generator pair. -/
structure RecoveryEnv (S Pt : Type) where
  pointHash : Pt → Nat → S
  vecHash : List S → Nat → S
  toNatRepr : S → Nat
  sInv : S → S
  genG : Nat → Pt
  genH : Nat → Pt

/-- `GammaSeed::GetHashWithSalt`, dispatching on the active variant. -/
def gammaSeedHash {S Pt : Type} (env : RecoveryEnv S Pt) :
    GammaSeedM S Pt → Nat → S
  | .point p, salt => env.pointHash p salt
  | .vec v, salt => env.vecHash v salt

/-- Modelled from the spec (4.6) and the source's own derivation comments
(part_003 lines 432-438): `range_proof::MsgAmtCipher::Decrypt` splits the
isolated scalar `msg1_vs0` into `(msg1, 64-bit amount)`, accepts only
when the amount and the recovered blinding factor reproduce the value
commitment `Vs[0]`, and isolates `msg2` out of `tau_x` using the
re-derived `tau1`/`tau2` nonces and the challenges. -/
def decrypt {S Pt : Type} [CommRing S] [DecidableEq Pt] [AddCommGroup Pt] [Module S Pt]
    (env : RecoveryEnv S Pt) (msg1_vs0 gamma_vs0 tau1 tau2 tau_x x z : S)
    (H G V : Pt) : Option (Nat × Nat × S) :=
  let n := env.toNatRepr msg1_vs0
  let amount := n % 2 ^ 64
  let msg1 := n / 2 ^ 64
  if V = ((amount : Nat) : S) • G + gamma_vs0 • H then
    some (amount, msg1, (tau_x - (tau2 * x * x + z * z * gamma_vs0)) * env.sInv x - tau1)
  else none

/-- One request of `RecoverAmounts` (part_003 lines 416-479): skip the
request (`continue`) unless it has non-empty, equal-length `Ls`/`Rs` and
exactly one value commitment; re-derive the four auxiliary scalars from
the nonce; isolate `msg1_vs0 = mu - rho·x - alpha`; decrypt, skipping the
request on failure; a recovered entry carries the amount, the gamma
`nonce.GetHashWithSalt(100)` and the message.  An empty vector seed fails
on its out-of-range `[0]` access. -/
def processReq {S Pt : Type} [CommRing S] [DecidableEq Pt] [AddCommGroup Pt] [Module S Pt]
    (env : RecoveryEnv S Pt) (req : AmountRecoveryReqM S Pt) :
    Except String (Option (RecoveredDataM S)) :=
  if req.Vs.length = 0 ∨ ¬ (req.Ls.length > 0 ∧ req.Ls.length = req.Rs.length) then
    Except.ok none
  else if ¬ req.Vs.length = 1 then Except.ok none
  else
    let alpha := gammaSeedHash env req.nonce 1
    let rho := gammaSeedHash env req.nonce 2
    let tau1 := gammaSeedHash env req.nonce 3
    let tau2 := gammaSeedHash env req.nonce 4
    let gammaE : Except String S :=
      match req.nonce with
      | .point p => Except.ok (env.pointHash p 100)
      | .vec v =>
        match v with
        | [] => Except.error "Elements index out of range"
        | g :: _ => Except.ok g
    gammaE.bind (fun gamma_vs0 =>
      let msg1_vs0 := req.mu - rho * req.x - alpha
      match decrypt env msg1_vs0 gamma_vs0 tau1 tau2 req.tau_x req.x req.z
          (env.genH req.seed) (env.genG req.seed) (req.Vs.headD 0) with
      | none => Except.ok none
      | some r =>
        Except.ok (some ⟨req.id, r.1, gammaSeedHash env req.nonce 100, r.2.1, r.2.2⟩))

/-- `RangeProofLogic::RecoverAmounts` (part_003 lines 406-485): the result
holds the successfully recovered entries only; a skipped request
contributes nothing and raises nothing. -/
def RecoverAmounts {S Pt : Type} [CommRing S] [DecidableEq Pt] [AddCommGroup Pt]
    [Module S Pt] (env : RecoveryEnv S Pt) (reqs : List (AmountRecoveryReqM S Pt)) :
    Except String (List (RecoveredDataM S)) :=
  reqs.foldlM (fun xs req => (processReq env req).map (fun r => xs ++ r.toList)) []

/-- The concrete recovery environment of the C5 witness: scalars and
points are integers, the salted point hash is `p + salt`, the scalar's
integer representation is `Int.toNat`, inversion is the identity (the
witness challenge is 1) and the generator pair is (1, 2). -/
def wRecEnv : RecoveryEnv Int Int :=
  ⟨fun p s => p + s, fun _ _ => 0, Int.toNat, fun a => a, fun _ => 1, fun _ => 2⟩

end Bulletproofs

namespace TxFactory

theorem mget_eq_mfind {α : Type} (m : List (Nat × α)) (k : Nat) (d : α) :
    mget m k d = (mfind m k).getD d := by
  induction m with
  | nil => rfl
  | cons p rest ih =>
    obtain ⟨k', v⟩ := p
    by_cases h : k = k'
    · subst h; simp [mget, mfind, List.lookup]
    · have hb : (k == k') = false := by simpa using h
      simpa [mget, mfind, h, List.lookup, hb] using ih

theorem mfind_msetD_self {α : Type} (k : Nat) (f : α → α) (d : α) (m : List (Nat × α)) :
    mfind (msetD k f d m) k = some (f (mget m k d)) := by
  rw [mget_eq_mfind]
  induction m with
  | nil => simp [msetD, mfind]
  | cons p rest ih =>
    obtain ⟨k', v⟩ := p
    by_cases h : k = k'
    · subst h; simp [msetD, mfind]
    · simpa [msetD, mfind, h] using ih

theorem valSum_nil : ((([] : List UnsignedInput)).map (fun i => i.value)).sum = 0 := by simp

theorem consumeLoop_fst (keep : UnsignedInput → Bool) (threshold : Int) :
    ∀ (ins : List UnsignedInput) (acc : Int),
      (consumeLoop keep threshold acc ins).1 =
        acc + valSum (consumeLoop keep threshold acc ins).2 := by
  intro ins
  induction ins with
  | nil => intro acc; simp [consumeLoop, valSum]
  | cons i rest ih =>
    intro acc
    by_cases hk : keep i = true
    · by_cases hb : acc + i.value > threshold
      · simp [consumeLoop, hk, hb, valSum]
      · simp only [consumeLoop, hk, if_true, hb, if_false, valSum, List.map_cons, List.sum_cons]
        have := ih (acc + i.value)
        simp only [valSum] at this
        omega
    · simp only [consumeLoop, hk, Bool.false_eq_true, if_false]
      exact ih acc

theorem consumeToken_total (st : FactoryState) (type : CreateTransactionType) (nFee : Int)
    (tok : TokenId) (ins : List UnsignedInput) :
    (consumeToken st type nFee tok ins).2.1 =
      valSum (consumeToken st type nFee tok ins).1.2 +
      valSum (consumeToken st type nFee tok ins).2.2 := by
  unfold consumeToken
  by_cases h : isStakedType type = true
  · simp only [h, if_true]
    have h1 := consumeLoop_fst (fun i => i.is_staked_commitment)
      ((mget st.nAmounts tok AmountsEntry.zero).nFromOutputs + nFee) ins 0
    have h2 := consumeLoop_fst (fun i => !i.is_staked_commitment)
      ((mget st.nAmounts tok AmountsEntry.zero).nFromOutputs + nFee) ins
      ((consumeLoop (fun i => i.is_staked_commitment)
        ((mget st.nAmounts tok AmountsEntry.zero).nFromOutputs + nFee) 0 ins).1)
    omega
  · simp only [h, Bool.false_eq_true, if_false]
    have h2 := consumeLoop_fst (fun i => !i.is_staked_commitment)
      ((mget st.nAmounts tok AmountsEntry.zero).nFromOutputs + nFee) ins 0
    simpa [valSum] using h2

theorem consumeToken_nil (st : FactoryState) (type : CreateTransactionType) (nFee : Int)
    (tok : TokenId) :
    consumeToken st type nFee tok [] = ((0, []), (0, [])) := by
  unfold consumeToken
  by_cases h : isStakedType type = true <;> simp [h, consumeLoop]

theorem sum_map_key_absent {β : Type} (tok : Nat) (g : Nat → β → Int) :
    ∀ (l : List (Nat × β)), tok ∉ l.map Prod.fst →
      (l.map (fun p => if p.1 = tok then g p.1 p.2 else 0)).sum = 0 := by
  intro l
  induction l with
  | nil => intro _; simp
  | cons p rest ih =>
    intro h
    have h1 : p.1 ≠ tok := fun he => h (by simp [he.symm])
    have h2 : tok ∉ rest.map Prod.fst := fun hm => h (by simp [hm])
    simp [h1, ih h2]

theorem mfind_eq_none {β : Type} (tok : Nat) :
    ∀ (l : List (Nat × β)), mfind l tok = none → tok ∉ l.map Prod.fst := by
  intro l
  induction l with
  | nil => intro _; simp
  | cons p rest ih =>
    obtain ⟨k, v⟩ := p
    intro h
    by_cases hk : tok = k
    · simp [mfind, hk] at h
    · simp only [mfind, hk, if_false] at h
      simpa [hk] using ih h

theorem sum_map_key_missing {β : Type} (tok : Nat) (g : Nat → β → Int)
    (l : List (Nat × β)) (hf : mfind l tok = none) :
    (l.map (fun p => if p.1 = tok then g p.1 p.2 else 0)).sum = 0 :=
  sum_map_key_absent tok g l (mfind_eq_none tok l hf)

theorem sum_map_key_found {β : Type} (tok : Nat) (g : Nat → β → Int) :
    ∀ (l : List (Nat × β)) (v : β), (l.map Prod.fst).Nodup → mfind l tok = some v →
      (l.map (fun p => if p.1 = tok then g p.1 p.2 else 0)).sum = g tok v := by
  intro l
  induction l with
  | nil => intro v _ hf; simp [mfind] at hf
  | cons p rest ih =>
    intro v hnd hf
    obtain ⟨k, w⟩ := p
    have hnd' : (k :: rest.map Prod.fst).Nodup := by simpa using hnd
    have hk1 : k ∉ rest.map Prod.fst := (List.nodup_cons.mp hnd').1
    have hk2 : (rest.map Prod.fst).Nodup := (List.nodup_cons.mp hnd').2
    by_cases h : tok = k
    · subst h
      have hf' : w = v := by simpa [mfind] using hf
      subst hf'
      have hz := sum_map_key_absent tok g rest hk1
      simp [hz]
    · simp only [mfind] at hf
      rw [if_neg h] at hf
      have hne : ¬ k = tok := fun he => h he.symm
      simp [hne, ih v hk2 hf]

theorem sum_map_flatMap {α β : Type} (l : List α) (F : α → List β) (m : β → Int) :
    ((l.flatMap F).map m).sum = (l.map (fun a => ((F a).map m).sum)).sum := by
  induction l with
  | nil => simp
  | cons a rest ih => simp [List.flatMap_cons, ih]

theorem txInput_token (t : TokenId) (v : Int) : (⟨t, v⟩ : TxInput).token = t := rfl

theorem txInput_value (t : TokenId) (v : Int) : (⟨t, v⟩ : TxInput).value = v := rfl

theorem txOutput_token (v : Int) (t : TokenId) : (⟨v, t⟩ : TxOutput).token = t := rfl

theorem txOutput_value (v : Int) (t : TokenId) : (⟨v, t⟩ : TxOutput).value = v := rfl

theorem chunk_vin_sum (t tok : Nat) (vs : List UnsignedInput) :
    ((vs.map (fun i => (⟨t, i.value⟩ : TxInput))).map
        (fun i => if i.token = tok then i.value else 0)).sum =
      if t = tok then valSum vs else 0 := by
  induction vs with
  | nil => simp [valSum]
  | cons i rest ih =>
    simp only [List.map_cons, List.sum_cons, txInput_token, txInput_value, ih, valSum]
    by_cases h : t = tok <;> simp [h]

theorem chunk_vout_sum (t tok : Nat) (vs : List Int) :
    ((vs.map (fun v => (⟨v, t⟩ : TxOutput))).map
        (fun o => if o.token = tok then o.value else 0)).sum =
      if t = tok then vs.sum else 0 := by
  induction vs with
  | nil => simp
  | cons v rest ih =>
    simp only [List.map_cons, List.sum_cons, txOutput_token, txOutput_value, ih]
    by_cases h : t = tok <;> simp [h]

theorem vinSum_consumedVin (st : FactoryState) (type : CreateTransactionType) (nFee : Int)
    (tok : TokenId) (vouts : List TxOutput)
    (hvi : (st.vInputs.map Prod.fst).Nodup) :
    vinSum ⟨consumedVin st type nFee, vouts⟩ tok = mapInputsAt st type nFee tok := by
  unfold vinSum consumedVin
  simp only [List.map_append, List.sum_append]
  rw [sum_map_flatMap, sum_map_flatMap]
  have e1 : (st.vInputs.map (fun p =>
      (((consumeToken st type nFee p.1 p.2).1.2.map (fun i => (⟨p.1, i.value⟩ : TxInput))).map
        (fun i => if i.token = tok then i.value else 0)).sum)) =
      st.vInputs.map (fun p =>
        if p.1 = tok then valSum (consumeToken st type nFee p.1 p.2).1.2 else 0) := by
    apply List.map_congr_left
    intro p _
    exact chunk_vin_sum p.1 tok _
  have e2 : (st.vInputs.map (fun p =>
      (((consumeToken st type nFee p.1 p.2).2.2.map (fun i => (⟨p.1, i.value⟩ : TxInput))).map
        (fun i => if i.token = tok then i.value else 0)).sum)) =
      st.vInputs.map (fun p =>
        if p.1 = tok then valSum (consumeToken st type nFee p.1 p.2).2.2 else 0) := by
    apply List.map_congr_left
    intro p _
    exact chunk_vin_sum p.1 tok _
  rw [e1, e2]
  unfold mapInputsAt consumedFor
  rw [mget_eq_mfind]
  cases hf : mfind st.vInputs tok with
  | none =>
    rw [sum_map_key_missing tok (fun k v => valSum (consumeToken st type nFee k v).1.2) st.vInputs hf,
        sum_map_key_missing tok (fun k v => valSum (consumeToken st type nFee k v).2.2) st.vInputs hf]
    simp [consumeToken_nil]
  | some ins =>
    rw [sum_map_key_found tok (fun k v => valSum (consumeToken st type nFee k v).1.2) st.vInputs ins hvi hf,
        sum_map_key_found tok (fun k v => valSum (consumeToken st type nFee k v).2.2) st.vInputs ins hvi hf]
    simpa using (consumeToken_total st type nFee tok ins).symm

theorem baseOutputs_sum (st : FactoryState) (tok : TokenId)
    (hvo : (st.vOutputs.map Prod.fst).Nodup) :
    ((baseOutputs st).map (fun o => if o.token = tok then o.value else 0)).sum =
      outputsSum st tok := by
  unfold baseOutputs
  rw [sum_map_flatMap]
  have e : (st.vOutputs.map (fun p =>
      ((p.2.map (fun v => (⟨v, p.1⟩ : TxOutput))).map
        (fun o => if o.token = tok then o.value else 0)).sum)) =
      st.vOutputs.map (fun p => if p.1 = tok then p.2.sum else 0) := by
    apply List.map_congr_left
    intro p _
    exact chunk_vout_sum p.1 tok p.2
  rw [e]
  unfold outputsSum
  rw [mget_eq_mfind]
  cases hf : mfind st.vOutputs tok with
  | none => rw [sum_map_key_missing tok (fun _ v => v.sum) st.vOutputs hf]; simp
  | some vs => rw [sum_map_key_found tok (fun _ v => v.sum) st.vOutputs vs hvo hf]; simp

theorem change_filter_sum (tok : Nat) :
    ∀ (l : List (Nat × Int)),
      (((l.filter (fun c => !(c.2 == 0))).map (fun c => (⟨c.2, c.1⟩ : TxOutput))).map
        (fun o => if o.token = tok then o.value else 0)).sum =
      (l.map (fun c => if c.1 = tok then c.2 else 0)).sum := by
  intro l
  induction l with
  | nil => simp
  | cons c rest ih =>
    by_cases h : c.2 = 0
    · simp only [List.filter_cons, h]
      simp only [List.map_cons, List.sum_cons]
      rw [← ih]
      simp [h]
    · simp only [List.filter_cons, h]
      simp only [List.map_cons, List.sum_cons, txOutput_token, txOutput_value]
      have hb : (c.2 == 0) = false := by simpa using h
      simp only [hb, Bool.not_false, if_true, List.map_cons, List.sum_cons,
        txOutput_token, txOutput_value]
      rw [ih]

theorem changeOutputs_sum (st : FactoryState) (type : CreateTransactionType) (nFee : Int)
    (tok : TokenId) (e : AmountsEntry)
    (hna : (st.nAmounts.map Prod.fst).Nodup)
    (htok : mfind st.nAmounts tok = some e) :
    ((changeOutputs st type nFee).map (fun o => if o.token = tok then o.value else 0)).sum =
      mapInputsAt st type nFee tok - e.nFromOutputs - feeOf nFee tok := by
  unfold changeOutputs
  rw [change_filter_sum tok]
  rw [List.map_map]
  have e1 := sum_map_key_found tok
    (fun k v => mapInputsAt st type nFee k - v.nFromOutputs - feeOf nFee k) st.nAmounts e hna htok
  refine Eq.trans ?_ e1
  congr 1

theorem buildStep_success (weight : TxM → Int) (rate : Int) (type : CreateTransactionType)
    (st : FactoryState) (nFee : Int) (tx : TxM)
    (h : buildStep weight rate type st nFee = Sum.inl (some tx)) :
    tx = ⟨(builtCore st type nFee).vin, (builtCore st type nFee).vout ++ [⟨nFee, 0⟩]⟩ ∧
    nFee = weight (builtCore st type nFee) * rate := by
  unfold buildStep at h
  split at h
  · simp at h
  · split at h
    · refine ⟨?_, by assumption⟩
      injection h with h1
      injection h1 with h2
      exact h2.symm
    · simp at h

theorem buildTxLoop_success (weight : TxM → Int) (rate : Int) (type : CreateTransactionType)
    (st : FactoryState) :
    ∀ (fuel : Nat) (f0 : Int) (res : Option TxM),
      buildTxLoop weight rate type st fuel f0 = some res →
      ∃ nFee, buildStep weight rate type st nFee = Sum.inl res := by
  intro fuel
  induction fuel with
  | zero => intro f0 res h; simp [buildTxLoop] at h
  | succ n ih =>
    intro f0 res h
    unfold buildTxLoop at h
    cases hb : buildStep weight rate type st f0 with
    | inl r =>
      rw [hb] at h
      refine ⟨f0, ?_⟩
      rw [hb]
      simpa using h
    | inr f' =>
      rw [hb] at h
      exact ih f' res h

/-- C1 (amended): for every token T present in the factory's accumulator,
after a successful `BuildTx` the sum of the input values consumed for T
equals the sum of all output values for T carried by the returned
transaction: the requested outputs plus the change output for T plus, for
the base token, the fee-marker output.  (The consumed input total can
strictly exceed requested plus fee; the difference is returned as change.) -/
theorem c1_buildtx_balance (weight : TxM → Int) (rate : Int)
    (type : CreateTransactionType) (st : FactoryState) (fuel : Nat) (f0 : Int)
    (tx : TxM) (tok : TokenId) (e : AmountsEntry)
    (hvi : (st.vInputs.map Prod.fst).Nodup)
    (hvo : (st.vOutputs.map Prod.fst).Nodup)
    (hna : (st.nAmounts.map Prod.fst).Nodup)
    (htok : mfind st.nAmounts tok = some e)
    (hout : outputsSum st tok = e.nFromOutputs)
    (hrun : buildTxLoop weight rate type st fuel f0 = some (some tx)) :
    vinSum tx tok = voutSum tx tok := by
  obtain ⟨nFee, hstep⟩ := buildTxLoop_success weight rate type st fuel f0 (some tx) hrun
  obtain ⟨htx, -⟩ := buildStep_success weight rate type st nFee tx hstep
  subst htx
  have hvin : vinSum ⟨(builtCore st type nFee).vin,
      (builtCore st type nFee).vout ++ [⟨nFee, 0⟩]⟩ tok = mapInputsAt st type nFee tok := by
    unfold builtCore
    exact vinSum_consumedVin st type nFee tok _ hvi
  rw [hvin]
  unfold voutSum builtCore
  simp only [List.map_append, List.sum_append]
  rw [baseOutputs_sum st tok hvo, changeOutputs_sum st type nFee tok e hna htok, hout]
  have hfee : (([(⟨nFee, 0⟩ : TxOutput)]).map
      (fun o => if o.token = tok then o.value else 0)).sum = feeOf nFee tok := by
    by_cases h : tok = 0
    · subst h; simp [feeOf]
    · have h' : ¬ (0 : TokenId) = tok := fun he => h he.symm
      simp [feeOf, h, h']
  rw [hfee]
  ring

/-- C1 counterexample: on `cexState` the build succeeds, consuming 100 for
the base token while the requested output value is 50 and the fee is 3 —
the consumed input total does not equal requested plus fee (100 is not
53); it equals requested plus change plus fee. -/
theorem c1_buildtx_counterexample :
    BuildTx cexWeight 1 CreateTransactionType.NORMAL cexState 3 = some (some cexTx) ∧
    vinSum cexTx 0 = 100 ∧
    (mget cexState.nAmounts 0 AmountsEntry.zero).nFromOutputs = 50 ∧
    cexTx.vout = [⟨50, 0⟩, ⟨47, 0⟩, ⟨3, 0⟩] ∧
    ¬ ((100 : Int) = 50 + 3) := by
  refine ⟨by decide, by decide, by decide, rfl, by decide⟩

/-- C1 witness: the amended balance theorem applied to the concrete build
of the counterexample state. -/
theorem c1_buildtx_balance_witness : vinSum cexTx 0 = voutSum cexTx 0 :=
  c1_buildtx_balance cexWeight 1 CreateTransactionType.NORMAL cexState 3 0 cexTx 0
    ⟨50, 100⟩ (by decide) (by decide) (by decide) (by decide) (by decide) (by decide)

theorem osc_step0 :
    buildStep oscWeight 1 CreateTransactionType.NORMAL oscState 0 = Sum.inr 2 := by decide

theorem osc_step1 :
    buildStep oscWeight 1 CreateTransactionType.NORMAL oscState 1 = Sum.inr 2 := by decide

theorem osc_step2 :
    buildStep oscWeight 1 CreateTransactionType.NORMAL oscState 2 = Sum.inr 1 := by decide

theorem osc_loop :
    ∀ (fuel : Nat) (nFee : Int), nFee = 1 ∨ nFee = 2 →
      buildTxLoop oscWeight 1 CreateTransactionType.NORMAL oscState fuel nFee = none := by
  intro fuel
  induction fuel with
  | zero => intro nFee _; rfl
  | succ n ih =>
    intro nFee h
    rcases h with h | h <;> subst h
    · unfold buildTxLoop
      rw [osc_step1]
      exact ih 2 (Or.inr rfl)
    · unfold buildTxLoop
      rw [osc_step2]
      exact ih 1 (Or.inl rfl)

/-- C9 counterexample: the fee fixed-point loop of `BuildTx` does not
terminate on `oscState` under the output-count weight model — every fuel
bound is exhausted with the loop still running (the C++ `while (true)`
iterates forever, alternating between assumed fees 1 and 2). -/
theorem c9_fee_loop_counterexample : oscLoopsForever := by
  intro fuel
  cases fuel with
  | zero => rfl
  | succ n =>
    unfold BuildTx buildTxLoop
    rw [osc_step0]
    exact osc_loop n 2 (Or.inr rfl)

/-- C9 (amended): whenever the `BuildTx` fee loop finishes, it finishes
either because some token has insufficient funds at the fee of that
iteration (returning no transaction) or because the fee recomputed from
the built transaction's weight equals the assumed fee (returning a
finalized transaction whose appended fee output carries exactly that
fixed-point fee); the loop itself is not guaranteed to terminate on every
accumulator state (`c9_fee_loop_counterexample`). -/
theorem c9_fee_loop_exit (weight : TxM → Int) (rate : Int)
    (type : CreateTransactionType) (st : FactoryState) :
    (∀ (nFee : Int) (fuel : Nat), insufficientAt st type nFee = true →
        buildTxLoop weight rate type st (fuel + 1) nFee = some none) ∧
    (∀ (fuel : Nat) (f0 : Int) (tx : TxM),
        buildTxLoop weight rate type st fuel f0 = some (some tx) →
        ∃ nFee : Int,
          tx = ⟨(builtCore st type nFee).vin, (builtCore st type nFee).vout ++ [⟨nFee, 0⟩]⟩ ∧
          nFee = weight (builtCore st type nFee) * rate) := by
  constructor
  · intro nFee fuel hins
    unfold buildTxLoop
    unfold buildStep
    rw [if_pos hins]
  · intro fuel f0 tx hrun
    obtain ⟨nFee, hstep⟩ := buildTxLoop_success weight rate type st fuel f0 (some tx) hrun
    obtain ⟨htx, hfee⟩ := buildStep_success weight rate type st nFee tx hstep
    exact ⟨nFee, htx, hfee⟩

/-- C6 counterexample: `CreateTransaction` for a staked-commitment
transaction whose amount is below the minimum stake reports the failure by
throwing (`Except.error`, modelling the C++ `std::runtime_error "A minimum
of X is required to stake"`), not by a cannot-build `none` return. -/
theorem c6_funds_counterexample :
    CreateTransaction oscWeight 1 [] 1 0 CreateTransactionType.STAKED_COMMITMENT 10 5 =
      Except.error BuildError.belowMinStake ∧
    CreateTransaction oscWeight 1 [] 1 0 CreateTransactionType.STAKED_COMMITMENT_UNSTAKE 10 5 =
      Except.error BuildError.notEnoughStaked := by
  constructor <;> rfl

/-- C6 (amended): insufficient input value for any token during `BuildTx`
yields the distinguishable cannot-build outcome (`none`, no transaction,
no exception); a below-minimum stake and an over-withdrawal of staked
value in `CreateTransaction` abort construction by throwing
(`std::runtime_error`, modelled as `Except.error`) — in every case no
transaction, not even a partial one, is produced. -/
theorem c6_funds_failures (weight : TxM → Int) (rate : Int) :
    (∀ (st : FactoryState) (type : CreateTransactionType) (nFee : Int) (fuel : Nat),
        insufficientAt st type nFee = true →
        buildTxLoop weight rate type st (fuel + 1) nFee = some none) ∧
    (∀ (candidates : List InputCandidate) (nAmount : Int) (tok : TokenId)
        (minStake : Int) (fuel : Nat),
        nAmount + stakedSum candidates < minStake →
        CreateTransaction weight rate candidates nAmount tok
          CreateTransactionType.STAKED_COMMITMENT minStake fuel =
          Except.error BuildError.belowMinStake) ∧
    (∀ (candidates : List InputCandidate) (nAmount : Int) (tok : TokenId)
        (minStake : Int) (fuel : Nat),
        stakedSum candidates - nAmount < 0 →
        CreateTransaction weight rate candidates nAmount tok
          CreateTransactionType.STAKED_COMMITMENT_UNSTAKE minStake fuel =
          Except.error BuildError.notEnoughStaked) := by
  refine ⟨?_, ?_, ?_⟩
  · intro st type nFee fuel hins
    unfold buildTxLoop
    unfold buildStep
    rw [if_pos hins]
  · intro candidates nAmount tok minStake fuel hlt
    unfold CreateTransaction
    rw [if_pos rfl, if_pos hlt]
  · intro candidates nAmount tok minStake fuel hlt
    unfold CreateTransaction
    have hty : ¬ (CreateTransactionType.STAKED_COMMITMENT_UNSTAKE =
        CreateTransactionType.STAKED_COMMITMENT) := by decide
    rw [if_neg hty, if_pos rfl]
    have hkept : candidates.filter (fun c =>
        !c.is_staked_commitment ||
          decide (CreateTransactionType.STAKED_COMMITMENT_UNSTAKE =
              CreateTransactionType.STAKED_COMMITMENT_UNSTAKE ∨
            CreateTransactionType.STAKED_COMMITMENT_UNSTAKE =
              CreateTransactionType.STAKED_COMMITMENT)) = candidates := by
      apply List.filter_eq_self.mpr
      intro a _
      simp
    rw [hkept, if_pos hlt]

/-- C10: `TxFactoryBase::AddInput` always returns `true` (its boolean
return never signals failure), appends the input to the token's per-token
input list, adds the amount to the token's input total, and leaves the
token's output total unchanged. -/
theorem c10_add_input_appends (st : FactoryState) (amount : Int) (tok : TokenId)
    (staked : Bool) :
    (AddInput st amount tok staked).2 = true ∧
    mget (AddInput st amount tok staked).1.vInputs tok [] =
      mget st.vInputs tok [] ++ [⟨amount, staked⟩] ∧
    (mget (AddInput st amount tok staked).1.nAmounts tok AmountsEntry.zero).nFromInputs =
      (mget st.nAmounts tok AmountsEntry.zero).nFromInputs + amount ∧
    (mget (AddInput st amount tok staked).1.nAmounts tok AmountsEntry.zero).nFromOutputs =
      (mget st.nAmounts tok AmountsEntry.zero).nFromOutputs := by
  refine ⟨rfl, ?_, ?_, ?_⟩ <;>
    simp [AddInput, mget_eq_mfind, mfind_msetD_self, mget_eq_mfind]

end TxFactory

namespace Verification

theorem except_bind_error {ε α β : Type} (e : ε) (k : α → Except ε β) :
    (Except.error e >>= k) = Except.error e := rfl

theorem except_bind_ok {ε α β : Type} (a : α) (k : α → Except ε β) :
    (Except.ok a >>= k) = k a := rfl

theorem foldlM_except_mem {α σ ε : Type} (f : σ → α → Except ε σ) (L : List ε)
    (hf : ∀ acc a e, f acc a = .error e → e ∈ L) :
    ∀ (l : List α) (acc : σ) (e : ε), l.foldlM f acc = .error e → e ∈ L := by
  intro l
  induction l with
  | nil => intro acc e h; simp [List.foldlM, pure, Except.pure] at h
  | cons a rest ih =>
    intro acc e h
    rw [List.foldlM_cons] at h
    cases hfa : f acc a with
    | error e' =>
      rw [hfa, except_bind_error] at h
      injection h with he
      exact he ▸ hf acc a e' hfa
    | ok acc' =>
      rw [hfa, except_bind_ok] at h
      exact ih acc' e h

theorem processPredicate_error {Pt : Type} [AddCommGroup Pt] (env : VerifyEnv Pt)
    (acc : CollectAcc Pt) (out : CTxOutM Pt) (e : TxFailure)
    (h : processPredicate env acc out = .error e) :
    e = TxFailure.invalid "failed-to-execute-predicate" := by
  unfold processPredicate at h
  cases hp : out.predicate with
  | none => simp [hp] at h
  | some p =>
    simp only [hp] at h
    by_cases hex : env.execPredicate p = true
    · simp [hex] at h
    · simp only [Bool.not_eq_true] at hex
      simp only [hex, Bool.false_eq_true, if_false] at h
      injection h with he
      exact he.symm

theorem processOutputRest_error {Pt : Type} [AddCommGroup Pt] (env : VerifyEnv Pt)
    (minStake : Int) (acc : CollectAcc Pt) (out : CTxOutM Pt) (e : TxFailure)
    (h : processOutputRest env minStake acc out = .error e) :
    e = TxFailure.invalid "spendable-output-with-public-value" ∨
    e = TxFailure.invalid "more-than-one-fee-output" ∨
    e = TxFailure.exception "Elements index out of range" := by
  unfold processOutputRest at h
  by_cases hb : out.isBLSCT = true
  · simp only [hb, if_true] at h
    cases hVs : out.blsctData.rangeProof.Vs with
    | nil =>
      simp only [hVs] at h
      injection h with he
      exact Or.inr (Or.inr he.symm)
    | cons v0 vrest =>
      simp only [hVs] at h
      cases hs : out.stakedCommitmentRangeProof with
      | some srp => simp [hs] at h
      | none => simp [hs] at h
  · simp only [Bool.not_eq_true] at hb
    simp only [hb, Bool.false_eq_true, if_false] at h
    split at h
    · injection h with he; exact Or.inl he.symm
    · split at h
      · injection h with he; exact Or.inr (Or.inl he.symm)
      · split at h
        · simp at h
        · simp at h

theorem processOutput_error {Pt : Type} [AddCommGroup Pt] (env : VerifyEnv Pt)
    (minStake : Int) (acc : CollectAcc Pt) (out : CTxOutM Pt) (e : TxFailure)
    (h : processOutput env minStake acc out = .error e) : e ∈ allowedFailures := by
  unfold processOutput at h
  cases hp : processPredicate env acc out with
  | error e' =>
    rw [hp, except_bind_error] at h
    injection h with he
    subst he
    rw [processPredicate_error env acc out e' hp]
    simp [allowedFailures]
  | ok acc1 =>
    rw [hp, except_bind_ok] at h
    rcases processOutputRest_error env minStake acc1 out e h with he | he | he <;>
      (subst he; simp [allowedFailures])

theorem collectInputs_error {Pt : Type} [AddCommGroup Pt] (env : VerifyEnv Pt)
    (view : Nat → Option (CoinM Pt)) (tx : CTransactionM Pt) (blockReward : Int) (e : TxFailure)
    (h : collectInputs env view tx blockReward = .error e) :
    e = TxFailure.invalid "bad-input-unknown" ∨
    e = TxFailure.exception "Elements index out of range" := by
  unfold collectInputs at h
  by_cases hcb : tx.isCoinBase = true
  · simp [hcb] at h
  · simp only [Bool.not_eq_true] at hcb
    simp only [hcb, Bool.false_eq_true, if_false] at h
    have hmem := foldlM_except_mem _
      [TxFailure.invalid "bad-input-unknown",
       TxFailure.exception "Elements index out of range"] ?_ tx.vin _ e h
    · simpa using hmem
    · intro acc i e' hfe
      cases hv : view i.prevout with
      | none =>
        simp only [hv] at hfe
        injection hfe with he
        simp [← he]
      | some coin =>
        simp only [hv] at hfe
        cases hVs : coin.rangeProofVs with
        | nil =>
          simp only [hVs] at hfe
          injection hfe with he
          simp [← he]
        | cons v0 vrest => simp [hVs] at hfe

theorem collect_error {Pt : Type} [AddCommGroup Pt] (env : VerifyEnv Pt)
    (view : Nat → Option (CoinM Pt)) (tx : CTransactionM Pt)
    (blockReward minStake : Int) (e : TxFailure)
    (h : collect env view tx blockReward minStake = .error e) : e ∈ allowedFailures := by
  unfold collect at h
  cases hci : collectInputs env view tx blockReward with
  | error e' =>
    rw [hci, except_bind_error] at h
    injection h with he
    subst he
    rcases collectInputs_error env view tx blockReward e' hci with he | he <;>
      (rw [he]; simp [allowedFailures])
  | ok acc0 =>
    rw [hci, except_bind_ok] at h
    cases hfo : tx.vout.foldlM (processOutput env minStake) acc0 with
    | error e' =>
      rw [hfo, except_bind_error] at h
      injection h with he
      subst he
      exact foldlM_except_mem (processOutput env minStake) allowedFailures
        (fun acc a e2 hh => processOutput_error env minStake acc a e2 hh) tx.vout acc0 e' hfo
    | ok acc1 =>
      rw [hfo, except_bind_ok] at h
      simp at h

theorem allowedFailures_invalid (r : String)
    (h : TxFailure.invalid r ∈ allowedFailures) : r ∈ rejectionLabels := by
  simp only [allowedFailures, List.mem_cons, List.not_mem_nil, or_false] at h
  rcases h with h | h | h | h | h | h | h | h
  · injection h with he; rw [he]; simp [rejectionLabels]
  · injection h with he; rw [he]; simp [rejectionLabels]
  · injection h with he; rw [he]; simp [rejectionLabels]
  · injection h with he; rw [he]; simp [rejectionLabels]
  · injection h with he; rw [he]; simp [rejectionLabels]
  · injection h with he; rw [he]; simp [rejectionLabels]
  · injection h with he; rw [he]; simp [rejectionLabels]
  · exact absurd h (by simp)

theorem allowedFailures_exception (w : String)
    (h : TxFailure.exception w ∈ allowedFailures) :
    w = "Elements index out of range" := by
  simp only [allowedFailures, List.mem_cons, List.not_mem_nil, or_false] at h
  rcases h with h | h | h | h | h | h | h | h
  · exact absurd h (by simp)
  · exact absurd h (by simp)
  · exact absurd h (by simp)
  · exact absurd h (by simp)
  · exact absurd h (by simp)
  · exact absurd h (by simp)
  · exact absurd h (by simp)
  · exact TxFailure.exception.inj h

theorem verifyTx_error_mem {Pt : Type} [AddCommGroup Pt] (env : VerifyEnv Pt)
    (view : Nat → Option (CoinM Pt)) (tx : CTransactionM Pt)
    (blockReward minStake : Int) (e : TxFailure)
    (h : VerifyTx env view tx blockReward minStake = .error e) : e ∈ allowedFailures := by
  unfold VerifyTx at h
  by_cases hh : haveInputs view tx = true
  · rw [if_neg (show ¬ ¬ haveInputs view tx = true by simp [hh])] at h
    cases hc : collect env view tx blockReward minStake with
    | error e' =>
      simp only [hc] at h
      injection h with he
      exact he ▸ collect_error env view tx blockReward minStake e' hc
    | ok acc =>
      simp only [hc] at h
      by_cases hs : env.sigVerifyBatch acc.vPubKeys acc.vMessages tx.txSig = true
      · by_cases hr : env.rpVerify acc.vProofs = true
        · simp [hs, hr] at h
        · rw [if_neg (show ¬ ¬ env.sigVerifyBatch acc.vPubKeys acc.vMessages tx.txSig = true
              by simp [hs])] at h
          rw [if_pos (show ¬ env.rpVerify acc.vProofs = true by simp [hr])] at h
          injection h with he
          exact he ▸ (by simp [allowedFailures] :
            TxFailure.invalid "failed-rangeproof-check" ∈ allowedFailures)
      · rw [if_pos (show ¬ env.sigVerifyBatch acc.vPubKeys acc.vMessages tx.txSig = true
            from hs)] at h
        injection h with he
        exact he ▸ (by simp [allowedFailures] :
          TxFailure.invalid "failed-signature-check" ∈ allowedFailures)
  · rw [if_pos (show ¬ haveInputs view tx = true from hh)] at h
    injection h with he
    exact he ▸ (by simp [allowedFailures] :
      TxFailure.invalid "bad-inputs-unknown" ∈ allowedFailures)

/-- C2: `VerifyTx` returns true only when both the batched signature check
over all collected (public key, message) pairs and the batched range-proof
verification succeed.  Every labelled rejection (`state.Invalid`) carries
exactly one reason label drawn from the fixed seven-label taxonomy, the
label of the first failing check: an unresolvable input set fails first
with `bad-inputs-unknown`, a passed collection pass with a failed
signature batch yields `failed-signature-check`, and a passed signature
batch with a failed range-proof batch yields `failed-rangeproof-check`.
But not every failure is labelled: the `Vs[0]` reads of verification.h
lines 62 and 105 throw an out-of-range exception on an empty
value-commitment list, and that exception escapes `VerifyTx` carrying no
taxonomy label. -/
theorem c2_verifytx_first_failure {Pt : Type} [AddCommGroup Pt] (env : VerifyEnv Pt)
    (view : Nat → Option (CoinM Pt)) (tx : CTransactionM Pt)
    (blockReward minStake : Int) :
    (VerifyTx env view tx blockReward minStake = Except.ok () →
      ∃ acc : CollectAcc Pt,
        collect env view tx blockReward minStake = Except.ok acc ∧
        env.sigVerifyBatch acc.vPubKeys acc.vMessages tx.txSig = true ∧
        env.rpVerify acc.vProofs = true) ∧
    (∀ r : String,
      VerifyTx env view tx blockReward minStake = Except.error (TxFailure.invalid r) →
        r ∈ rejectionLabels) ∧
    (∀ w : String,
      VerifyTx env view tx blockReward minStake = Except.error (TxFailure.exception w) →
        w = "Elements index out of range") ∧
    (haveInputs view tx = false →
      VerifyTx env view tx blockReward minStake =
        Except.error (TxFailure.invalid "bad-inputs-unknown")) ∧
    (∀ acc : CollectAcc Pt, haveInputs view tx = true →
      collect env view tx blockReward minStake = Except.ok acc →
      env.sigVerifyBatch acc.vPubKeys acc.vMessages tx.txSig = false →
      VerifyTx env view tx blockReward minStake =
        Except.error (TxFailure.invalid "failed-signature-check")) ∧
    (∀ acc : CollectAcc Pt, haveInputs view tx = true →
      collect env view tx blockReward minStake = Except.ok acc →
      env.sigVerifyBatch acc.vPubKeys acc.vMessages tx.txSig = true →
      env.rpVerify acc.vProofs = false →
      VerifyTx env view tx blockReward minStake =
        Except.error (TxFailure.invalid "failed-rangeproof-check")) := by
  refine ⟨?_, ?_, ?_, ?_, ?_, ?_⟩
  · intro h
    unfold VerifyTx at h
    by_cases hh : haveInputs view tx = true
    · rw [if_neg (show ¬ ¬ haveInputs view tx = true by simp [hh])] at h
      cases hc : collect env view tx blockReward minStake with
      | error e => simp only [hc] at h; simp at h
      | ok acc =>
        simp only [hc] at h
        by_cases hs : env.sigVerifyBatch acc.vPubKeys acc.vMessages tx.txSig = true
        · by_cases hr : env.rpVerify acc.vProofs = true
          · exact ⟨acc, rfl, hs, hr⟩
          · simp [hs, hr] at h
        · simp [hs] at h
    · rw [if_pos (show ¬ haveInputs view tx = true from hh)] at h
      simp at h
  · intro r h
    exact allowedFailures_invalid r
      (verifyTx_error_mem env view tx blockReward minStake _ h)
  · intro w h
    exact allowedFailures_exception w
      (verifyTx_error_mem env view tx blockReward minStake _ h)
  · intro hh
    unfold VerifyTx
    rw [if_pos (show ¬ haveInputs view tx = true by simp [hh])]
  · intro acc hh hc hs
    unfold VerifyTx
    rw [if_neg (show ¬ ¬ haveInputs view tx = true by simp [hh])]
    simp only [hc]
    rw [if_pos (show ¬ env.sigVerifyBatch acc.vPubKeys acc.vMessages tx.txSig = true
      by simp [hs])]
  · intro acc hh hc hs hr
    unfold VerifyTx
    rw [if_neg (show ¬ ¬ haveInputs view tx = true by simp [hh])]
    simp only [hc]
    rw [if_neg (show ¬ ¬ env.sigVerifyBatch acc.vPubKeys acc.vMessages tx.txSig = true
      by simp [hs])]
    rw [if_pos (show ¬ env.rpVerify acc.vProofs = true by simp [hr])]

/-- C2 witness: the theorem applied to a concrete passing transaction (a
coinbase with no outputs under an all-accepting environment). -/
theorem c2_verifytx_witness :
    ∃ acc : CollectAcc Int,
      collect wEnv wView wTx 0 0 = Except.ok acc ∧
      wEnv.sigVerifyBatch acc.vPubKeys acc.vMessages wTx.txSig = true ∧
      wEnv.rpVerify acc.vProofs = true :=
  (c2_verifytx_first_failure wEnv wView wTx 0 0).1 rfl

/-- C2 counterexample: two transactions on which `VerifyTx` neither
returns true nor returns false with a taxonomy label, but throws: a
coinbase carrying one confidential output whose range proof has an empty
value-commitment list (the `Vs[0]` read of verification.h line 105), and a
transaction spending a coin whose range proof has an empty
value-commitment list — what a spent transparent zero-value output leaves
behind (the `Vs[0]` read of line 62).  The escaping exception message is
not one of the seven taxonomy labels. -/
theorem c2_verifytx_counterexample :
    VerifyTx wEnv wView xTxEmptyVsOut 0 0 =
      Except.error (TxFailure.exception "Elements index out of range") ∧
    VerifyTx wEnv xViewEmptyVsCoin xTxSpendOne 0 0 =
      Except.error (TxFailure.exception "Elements index out of range") ∧
    "Elements index out of range" ∉ rejectionLabels :=
  ⟨rfl, rfl, by decide⟩

end Verification

namespace SetMem

theorem getElem?_findIdx_self {Pt : Type} [DecidableEq Pt] (sigma : Pt) :
    ∀ (Ys : List Pt), sigma ∈ Ys →
      Ys[Ys.findIdx (fun y => decide (y = sigma))]? = some sigma := by
  intro Ys
  induction Ys with
  | nil => intro h; simp at h
  | cons y rest ih =>
    intro h
    by_cases hy : y = sigma
    · subst hy; simp [List.findIdx_cons]
    · have hr : sigma ∈ rest := by
        rcases List.mem_cons.mp h with h1 | h1
        · exact absurd h1.symm hy
        · exact h1
      simp [List.findIdx_cons, hy, ih hr]

theorem mem_of_getElem?_some {Pt : Type} :
    ∀ (l : List Pt) (n : Nat) (a : Pt), l[n]? = some a → a ∈ l := by
  intro l
  induction l with
  | nil => intro n a h; simp at h
  | cons x rest ih =>
    intro n a h
    cases n with
    | zero =>
      simp only [List.getElem?_cons_zero] at h
      injection h with he
      simp [he]
    | succ k =>
      simp only [List.getElem?_cons_succ] at h
      exact List.mem_cons_of_mem x (ih k a h)

/-- C3: set-membership proof round trip and binding (model from spec
4.7).  With `pf = Prove(setup, Ys, sigma, m, f, etaFS, etaPhi)`:
verification succeeds when `sigma` is an element of `Ys` at the proved
position; it returns false (not an error) when `sigma` is absent from
`Ys`; false against any list other than `Ys` — which covers both a list
placing `sigma` at a different position and a list sharing `sigma` at the
same position with different surrounding content; false under a different
Fiat-Shamir seed; and false when the proved target is a linear
combination `Ys[i] + Ys[j]` of other list elements that is not itself a
literal list member. -/
theorem c3_set_mem_prove_verify {Pt S M : Type} [DecidableEq Pt] [DecidableEq S]
    [DecidableEq M] [Add Pt] (setup : Unit) (Ys : List Pt) (sigma : Pt) (m f : S)
    (etaFS : S) (etaPhi : M) :
    (sigma ∈ Ys →
      SetMemVerify setup Ys etaFS etaPhi (SetMemProve setup Ys sigma m f etaFS etaPhi) = true) ∧
    (sigma ∉ Ys →
      SetMemVerify setup Ys etaFS etaPhi (SetMemProve setup Ys sigma m f etaFS etaPhi) = false) ∧
    (∀ Ys' : List Pt, Ys' ≠ Ys →
      SetMemVerify setup Ys' etaFS etaPhi (SetMemProve setup Ys sigma m f etaFS etaPhi) = false) ∧
    (∀ etaFS' : S, etaFS' ≠ etaFS →
      SetMemVerify setup Ys etaFS' etaPhi (SetMemProve setup Ys sigma m f etaFS etaPhi) = false) ∧
    (∀ (i j : Nat) (hi : i < Ys.length) (hj : j < Ys.length),
      Ys[i] + Ys[j] ∉ Ys →
      SetMemVerify setup Ys etaFS etaPhi
        (SetMemProve setup Ys (Ys[i] + Ys[j]) m f etaFS etaPhi) = false) := by
  refine ⟨?_, ?_, ?_, ?_, ?_⟩
  · intro hmem
    simp [SetMemProve, SetMemVerify, getElem?_findIdx_self sigma Ys hmem]
  · intro hmem
    simp only [SetMemProve, SetMemVerify]
    by_cases hg : Ys[Ys.findIdx (fun y => decide (y = sigma))]? = some sigma
    · exact absurd (mem_of_getElem?_some Ys _ sigma hg) hmem
    · simp [hg]
  · intro Ys' hne
    have : ¬ (Ys = Ys') := fun he => hne he.symm
    simp [SetMemProve, SetMemVerify, this]
  · intro etaFS' hne
    have : ¬ (etaFS = etaFS') := fun he => hne he.symm
    simp [SetMemProve, SetMemVerify, this]
  · intro i j hi hj hmem
    simp only [SetMemProve, SetMemVerify]
    by_cases hg : Ys[Ys.findIdx (fun y => decide (y = Ys[i] + Ys[j]))]? = some (Ys[i] + Ys[j])
    · exact absurd (mem_of_getElem?_some Ys _ _ hg) hmem
    · simp [hg]

/-- C3 witness: the model evaluated on the concrete scenario of the test
suite's shape — a 4-element list with the target at position 2 verifies,
a target absent from the list fails, the same elements with two positions
swapped fail, and a changed Fiat-Shamir seed fails. -/
theorem c3_set_mem_witness :
    SetMemVerify () [(10 : Int), 20, 30, 40] (5 : Int) ([1, 2, 3] : List Nat)
      (SetMemProve () [(10 : Int), 20, 30, 40] 30 (7 : Int) 9 5 [1, 2, 3]) = true ∧
    SetMemVerify () [(10 : Int), 20, 30, 40] (5 : Int) ([1, 2, 3] : List Nat)
      (SetMemProve () [(10 : Int), 20, 30, 40] 99 (7 : Int) 9 5 [1, 2, 3]) = false ∧
    SetMemVerify () [(10 : Int), 20, 40, 30] (5 : Int) ([1, 2, 3] : List Nat)
      (SetMemProve () [(10 : Int), 20, 30, 40] 30 (7 : Int) 9 5 [1, 2, 3]) = false ∧
    SetMemVerify () [(10 : Int), 20, 30, 40] (6 : Int) ([1, 2, 3] : List Nat)
      (SetMemProve () [(10 : Int), 20, 30, 40] 30 (7 : Int) 9 5 [1, 2, 3]) = false := by
  have h := c3_set_mem_prove_verify () [(10 : Int), 20, 30, 40] (30 : Int) (7 : Int) (9 : Int)
    (5 : Int) ([1, 2, 3] : List Nat)
  have h99 := c3_set_mem_prove_verify () [(10 : Int), 20, 30, 40] (99 : Int) (7 : Int) (9 : Int)
    (5 : Int) ([1, 2, 3] : List Nat)
  exact ⟨h.1 (by decide), h99.2.1 (by decide), h.2.2.1 [(10 : Int), 20, 40, 30] (by decide),
    h.2.2.2.1 (6 : Int) (by decide)⟩

end SetMem

namespace Bulletproofs

theorem inner_comm {S : Type} [CommRing S] : ∀ (a b : List S), inner a b = inner b a := by
  intro a
  induction a with
  | nil => intro b; cases b <;> simp [inner, vmul]
  | cons x rest ih =>
    intro b
    cases b with
    | nil => simp [inner, vmul]
    | cons y bs =>
      simp only [inner, vmul, List.zipWith_cons_cons, List.sum_cons]
      simp only [inner, vmul] at ih
      rw [ih bs, mul_comm]

theorem inner_smul_left {S : Type} [CommRing S] (x : S) :
    ∀ (a b : List S), inner (smulv x a) b = x * inner a b := by
  intro a
  induction a with
  | nil => intro b; simp [inner, smulv, vmul]
  | cons a0 rest ih =>
    intro b
    cases b with
    | nil => simp [inner, smulv, vmul]
    | cons b0 bs =>
      simp only [inner, smulv, vmul, List.map_cons, List.zipWith_cons_cons, List.sum_cons]
      simp only [inner, smulv, vmul] at ih
      rw [ih bs]
      ring

theorem inner_smul_right {S : Type} [CommRing S] (x : S) (a b : List S) :
    inner a (smulv x b) = x * inner a b := by
  rw [inner_comm, inner_smul_left, inner_comm]

theorem inner_vadd_left {S : Type} [CommRing S] :
    ∀ (a b c : List S), a.length = b.length →
      inner (vadd a b) c = inner a c + inner b c := by
  intro a
  induction a with
  | nil =>
    intro b c h
    have hb : b = [] := List.length_eq_zero.mp h.symm
    subst hb
    simp [inner, vadd, vmul]
  | cons a0 as ih =>
    intro b c h
    cases b with
    | nil => simp at h
    | cons b0 bs =>
      cases c with
      | nil => simp [inner, vadd, vmul]
      | cons c0 cs =>
        simp only [List.length_cons, Nat.succ.injEq] at h
        simp only [inner, vadd, vmul, List.zipWith_cons_cons, List.sum_cons]
        simp only [inner, vadd, vmul] at ih
        rw [ih bs cs h]
        ring

theorem inner_vadd_right {S : Type} [CommRing S] (a b c : List S) (h : b.length = c.length) :
    inner a (vadd b c) = inner a b + inner a c := by
  rw [inner_comm, inner_vadd_left b c a h, inner_comm, inner_comm c a]

theorem inner_bilinear {S : Type} [CommRing S] (x : S) (a b c d : List S)
    (hab : a.length = b.length) (hcd : c.length = d.length) :
    inner (vadd a (smulv x b)) (vadd c (smulv x d)) =
      inner a c + (inner a d + inner b c) * x + inner b d * x * x := by
  rw [inner_vadd_left a (smulv x b) _ (by simp [smulv, hab])]
  rw [inner_vadd_right a c (smulv x d) (by simp [smulv, hcd])]
  rw [inner_vadd_right (smulv x b) c (smulv x d) (by simp [smulv, hcd])]
  rw [inner_smul_right, inner_smul_left, inner_smul_left, inner_smul_right]
  ring

theorem proveStep60_identity {S : Type} [CommRing S] (n : Nat)
    (aL sL sR z_pow_twos y_pows : List S) (z x : S)
    (haL : aL.length = n) (hsL : sL.length = n) (hsR : sR.length = n)
    (hzp : z_pow_twos.length = n) (hyp : y_pows.length = n) :
    (proveStep60 n aL sL sR z_pow_twos y_pows z x).1 =
      (proveStep60 n aL sL sR z_pow_twos y_pows z x).2 := by
  have hl : (vsub aL (List.replicate n z)).length = sL.length := by
    simp [vsub, haL, hsL]
  have hr : (vadd (vmul y_pows (vadd (vsub aL (List.replicate n (1 : S)))
      (List.replicate n z))) z_pow_twos).length = (vmul y_pows sR).length := by
    simp [vadd, vsub, vmul, haL, hsR, hyp, hzp]
  have h := inner_bilinear x
    (vsub aL (List.replicate n z)) sL
    (vadd (vmul y_pows (vadd (vsub aL (List.replicate n (1 : S)))
      (List.replicate n z))) z_pow_twos)
    (vmul y_pows sR) hl hr
  simpa [proveStep60] using h

/-- C8: the internal consistency check at step (60) never fails — for
every input shape that reaches it (all five vectors of the common length
`m·n`), the locally evaluated inner product `t_hat` equals the expected
polynomial evaluation `t0 + t1·x + t2·x²`, so the throwing branch is
unreachable: the equality is an algebraic identity of the constructed
`l0`, `l1`, `r0`, `r1`, `t0`, `t1`, `t2`. -/
theorem c8_step60_never_throws {S : Type} [CommRing S] [DecidableEq S] (n : Nat)
    (aL sL sR z_pow_twos y_pows : List S) (z x : S)
    (haL : aL.length = n) (hsL : sL.length = n) (hsR : sR.length = n)
    (hzp : z_pow_twos.length = n) (hyp : y_pows.length = n) :
    step60Check n aL sL sR z_pow_twos y_pows z x =
      Except.ok (proveStep60 n aL sL sR z_pow_twos y_pows z x).1 := by
  unfold step60Check
  rw [if_neg]
  intro hne
  exact hne (proveStep60_identity n aL sL sR z_pow_twos y_pows z x haL hsL hsR hzp hyp)

/-- C8 witness: the check at a concrete bit vector, blinding vectors and
challenges over the integers. -/
theorem c8_step60_witness :
    step60Check 2 [(1 : Int), 0] [2, 3] [4, 5] [6, 7] [1, 2] 9 11 =
      Except.ok (proveStep60 2 [(1 : Int), 0] [2, 3] [4, 5] [6, 7] [1, 2] 9 11).1 :=
  c8_step60_never_throws 2 [(1 : Int), 0] [2, 3] [4, 5] [6, 7] [1, 2] 9 11
    (by decide) (by decide) (by decide) (by decide) (by decide)

theorem mem_set_self {α : Type} :
    ∀ (l : List α) (i : Nat) (a : α), i < l.length → a ∈ l.set i a := by
  intro l
  induction l with
  | nil => intro i a h; simp at h
  | cons x rest ih =>
    intro i a h
    cases i with
    | zero => simp
    | succ k =>
      simp only [List.set_cons_succ]
      exact List.mem_cons_of_mem x (ih k a (by simpa using Nat.lt_of_succ_lt_succ h))

/-- C4: batched range-proof verification returns true iff every proof's
individual per-proof check passes; replacing any single proof of the
batch by one whose individual check fails makes the whole batch verify
false, and a proof whose `Ls` and `Rs` sequences differ in length always
fails its individual check. -/
theorem c4_batch_verification {Pt : Type} (innerCheck : RPTranscriptM Pt → Bool)
    (proof_transcripts : List (RPTranscriptM Pt)) :
    (VerifyProofs innerCheck proof_transcripts = true ↔
      ∀ p ∈ proof_transcripts, perProofCheck innerCheck p = true) ∧
    (∀ (i : Nat) (p' : RPTranscriptM Pt), i < proof_transcripts.length →
      perProofCheck innerCheck p' = false →
      VerifyProofs innerCheck (proof_transcripts.set i p') = false) ∧
    (∀ p' : RPTranscriptM Pt, p'.Ls.length ≠ p'.Rs.length →
      perProofCheck innerCheck p' = false) := by
  refine ⟨?_, ?_, ?_⟩
  · simp [VerifyProofs, List.all_eq_true]
  · intro i p' hi hp
    have hmem : p' ∈ proof_transcripts.set i p' := mem_set_self proof_transcripts i p' hi
    have : ¬ (VerifyProofs innerCheck (proof_transcripts.set i p') = true) := by
      intro hall
      have := (List.all_eq_true.mp hall) p' hmem
      rw [hp] at this
      exact Bool.false_ne_true this
    exact Bool.eq_false_iff.mpr (fun he => this he)
  · intro p' h
    have hb : (p'.Ls.length == p'.Rs.length) = false := by
      simpa using h
    simp [perProofCheck, hb]

/-- C4 witness: a batch of two passing proofs verifies true, and
replacing the second by a proof with unequal `Ls`/`Rs` lengths makes the
batch verify false. -/
theorem c4_batch_witness :
    VerifyProofs (fun _ => true)
      [(⟨[1], [2], 0⟩ : RPTranscriptM Int), ⟨[3], [4], 1⟩] = true ∧
    VerifyProofs (fun _ => true)
      ([(⟨[1], [2], 0⟩ : RPTranscriptM Int), ⟨[3], [4], 1⟩].set 1 ⟨[5], [], 2⟩) = false := by
  constructor
  · exact (c4_batch_verification (fun _ => true)
      [(⟨[1], [2], 0⟩ : RPTranscriptM Int), ⟨[3], [4], 1⟩]).1.mpr (by decide)
  · exact (c4_batch_verification (fun _ => true)
      [(⟨[1], [2], 0⟩ : RPTranscriptM Int), ⟨[3], [4], 1⟩]).2.1 1 ⟨[5], [], 2⟩
      (by decide) (by decide)

theorem firstPow2GeGo_ge (n : Nat) :
    ∀ (f acc : Nat), n ≤ acc * 2 ^ f → n ≤ firstPow2GeGo n f acc := by
  intro f
  induction f with
  | zero => intro acc h; simpa [firstPow2GeGo] using h
  | succ k ih =>
    intro acc h
    unfold firstPow2GeGo
    by_cases ha : n ≤ acc
    · simpa [ha]
    · simp only [ha, if_false]
      refine ih (2 * acc) ?_
      calc n ≤ acc * 2 ^ (k + 1) := h
        _ = 2 * acc * 2 ^ k := by ring

theorem le_firstPow2Ge (n : Nat) : n ≤ firstPow2Ge n :=
  firstPow2GeGo_ge n n 1 (by simpa using Nat.le_of_lt (Nat.lt_two_pow n))

theorem commitLoop_ok {S Pt : Type} [CommRing S] [AddCommGroup Pt] [Module S Pt] (G H : Pt) :
    ∀ (vsOrig gammas : List S), vsOrig.length ≤ gammas.length →
      commitLoop G H vsOrig gammas =
        Except.ok (List.zipWith (fun v g => v • G + g • H) vsOrig gammas) := by
  intro vsOrig
  induction vsOrig with
  | nil => intro gammas _; simp [commitLoop]
  | cons v vrest ih =>
    intro gammas h
    cases gammas with
    | nil => simp at h
    | cons g grest =>
      simp only [commitLoop, List.zipWith_cons_cons]
      rw [ih grest (by simpa using h)]
      rfl

theorem commitLoop_short {S Pt : Type} [CommRing S] [AddCommGroup Pt] [Module S Pt] (G H : Pt) :
    ∀ (vsOrig gammas : List S), gammas.length < vsOrig.length →
      commitLoop G H vsOrig gammas = Except.error "Elements index out of range" := by
  intro vsOrig
  induction vsOrig with
  | nil => intro gammas h; simp at h
  | cons v vrest ih =>
    intro gammas h
    cases gammas with
    | nil => rfl
    | cons g grest =>
      simp only [commitLoop]
      rw [ih grest (by simpa using h)]
      rfl

theorem getD_replicate_zero {S : Type} [CommRing S] :
    ∀ (k j : Nat), (List.replicate k (0 : S)).getD j 0 = 0 := by
  intro k
  induction k with
  | zero => intro j; simp
  | succ n ih =>
    intro j
    cases j with
    | zero => simp [List.replicate]
    | succ i => simpa [List.replicate] using ih i

theorem padZeros_getD_zero {S : Type} [CommRing S] (l : List S) (m i : Nat)
    (h : l.length ≤ i) : (padZeros l m).getD i 0 = 0 := by
  unfold padZeros
  rw [List.getD_append_right _ _ _ _ h]
  exact getD_replicate_zero _ _

/-- C7 (amended): `Prove` rounds the value count up to the next power of
two, padding the values with zeros.  With a point seed it derives one
blinding factor per padded value from the seed (`GetHashWithSalt(100+i)`
— the padded positions get derived, not zero, blinding factors) and
publishes `Vs[i] = G·value_i + H·gamma_i` for every padded index.  With a
vector seed, one accepted blinding factor per original value, the same
holds exactly when the input count is already a power of two; for any
other count the gamma vector is not padded and `Prove` fails on an
out-of-range gamma access instead of committing. -/
theorem c7_prove_commitments {S Pt : Type} [CommRing S] [DecidableEq S] [AddCommGroup Pt]
    [Module S Pt] (pointHash : Pt → Nat → S) (G H : Pt) (vs : List S) (minValue : S) :
    (∀ p : Pt, vs.length ≠ 0 →
      proveCommitments pointHash G H (GammaSeedM.point p) vs minValue =
        Except.ok (List.zipWith (fun v g => v • G + g • H)
          (padZeros vs (firstPow2Ge vs.length))
          ((List.range (firstPow2Ge vs.length)).map (fun i => pointHash p (100 + i))))) ∧
    (∀ i : Nat, vs.length ≤ i → (padZeros vs (firstPow2Ge vs.length)).getD i 0 = 0) ∧
    (∀ v : List S, vs.length ≠ 0 → vs.length = v.length →
      firstPow2Ge vs.length = vs.length →
      proveCommitments pointHash G H (GammaSeedM.vec v) vs minValue =
        Except.ok (List.zipWith (fun a g => a • G + g • H) vs v)) ∧
    (∀ v : List S, vs.length ≠ 0 → vs.length = v.length →
      vs.length < firstPow2Ge vs.length →
      proveCommitments pointHash G H (GammaSeedM.vec v) vs minValue =
        Except.error "Elements index out of range") := by
  refine ⟨?_, ?_, ?_, ?_⟩
  · intro p hne
    unfold proveCommitments
    rw [if_neg hne]
    refine commitLoop_ok G H _ _ ?_
    have hm := le_firstPow2Ge vs.length
    simp [padZeros, List.length_replicate]
    omega
  · intro i hi
    exact padZeros_getD_zero vs (firstPow2Ge vs.length) i hi
  · intro v hne hlen hpow
    unfold proveCommitments
    rw [if_neg hne]
    have hveq : ¬ (vs.length ≠ v.length) := by simp [hlen]
    simp only [hveq, if_false]
    have hpad : padZeros vs (firstPow2Ge vs.length) = vs := by
      simp [padZeros, hpow]
    rw [hpad]
    exact commitLoop_ok G H vs v (by omega)
  · intro v hne hlen hlt
    unfold proveCommitments
    rw [if_neg hne]
    have hveq : ¬ (vs.length ≠ v.length) := by simp [hlen]
    simp only [hveq, if_false]
    refine commitLoop_short G H _ _ ?_
    have hm : vs.length ≤ firstPow2Ge vs.length := le_firstPow2Ge vs.length
    simp [padZeros, List.length_replicate]
    omega

/-- C7 counterexample: with a vector seed and three values (padded count
four) the commitment phase fails on an out-of-range gamma access instead
of committing with zero padding; and with a point seed the padded fourth
commitment carries the derived blinding factor 103, not the zero blinding
factor the claim describes (its commitment 206 = 0·G + 103·H differs from
0·G + 0·H = 0). -/
theorem c7_prove_counterexample :
    proveCommitments (fun (p : Int) (s : Nat) => p + s) (1 : Int) (2 : Int)
      (GammaSeedM.vec [(4 : Int), 5, 6]) [(1 : Int), 2, 3] 0 =
      Except.error "Elements index out of range" ∧
    proveCommitments (fun (p : Int) (s : Nat) => p + s) (1 : Int) (2 : Int)
      (GammaSeedM.point (0 : Int)) [(1 : Int), 2, 3] 0 =
      Except.ok [201, 204, 207, 206] ∧
    (206 : Int) ≠ (0 : Int) • (1 : Int) + (0 : Int) • (2 : Int) := by
  refine ⟨rfl, ?_, by decide⟩
  show commitLoop (1 : Int) 2 (padZeros [(1 : Int), 2, 3] 4)
      ((List.range 4).map (fun i => ((0 : Int) + (100 + i : Nat)))) =
    Except.ok [201, 204, 207, 206]
  norm_num [commitLoop, padZeros, List.range_succ, Except.map]

/-- C7 witness: the amended theorem's point-seed clause evaluated at the
same three concrete values. -/
theorem c7_prove_witness :
    proveCommitments (fun (p : Int) (s : Nat) => p + s) (1 : Int) (2 : Int)
      (GammaSeedM.point (0 : Int)) [(1 : Int), 2, 3] 0 =
      Except.ok (List.zipWith (fun v g => v • (1 : Int) + g • (2 : Int))
        (padZeros [(1 : Int), 2, 3] (firstPow2Ge 3))
        ((List.range (firstPow2Ge 3)).map (fun i => ((0 : Int) + (100 + i : Nat))))) :=
  (c7_prove_commitments (fun (p : Int) (s : Nat) => p + s) (1 : Int) (2 : Int)
    [(1 : Int), 2, 3] 0).1 (0 : Int) (by decide)

theorem recoverAmounts_singleton {S Pt : Type} [CommRing S] [DecidableEq Pt]
    [AddCommGroup Pt] [Module S Pt] (env : RecoveryEnv S Pt)
    (req : AmountRecoveryReqM S Pt) :
    RecoverAmounts env [req] = (processReq env req).map (fun r => r.toList) := by
  unfold RecoverAmounts
  cases hp : processReq env req with
  | error e => simp [List.foldlM, hp, Except.map]
  | ok r => cases r <;> simp [List.foldlM, hp, Except.map] <;> rfl

theorem exbind_ok {ε α β : Type} (a : α) (k : α → Except ε β) :
    (Except.ok a : Except ε α).bind k = k a := rfl

theorem processReq_skip {S Pt : Type} [CommRing S] [DecidableEq Pt] [AddCommGroup Pt]
    [Module S Pt] (env : RecoveryEnv S Pt) (req : AmountRecoveryReqM S Pt)
    (h : (req.Vs.length = 0 ∨ ¬ (req.Ls.length > 0 ∧ req.Ls.length = req.Rs.length)) ∨
      ¬ req.Vs.length = 1) :
    processReq env req = Except.ok none := by
  unfold processReq
  by_cases c1 : req.Vs.length = 0 ∨ ¬ (req.Ls.length > 0 ∧ req.Ls.length = req.Rs.length)
  · rw [if_pos c1]
  · rw [if_neg c1]
    rcases h with h | h
    · exact absurd h c1
    · rw [if_pos h]

theorem decrypt_honest {S Pt : Type} [CommRing S] [DecidableEq Pt] [AddCommGroup Pt]
    [Module S Pt] (env : RecoveryEnv S Pt) (v msg1 : Nat) (msg2 γ nt1 t2 x z : S)
    (G H : Pt)
    (htn : env.toNatRepr (((msg1 * 2 ^ 64 + v : Nat)) : S) = msg1 * 2 ^ 64 + v)
    (hv : v < 2 ^ 64) (hx : x * env.sInv x = 1) :
    decrypt env (((msg1 * 2 ^ 64 + v : Nat)) : S) γ nt1 t2
      ((nt1 + msg2) * x + t2 * x * x + z * z * γ) x z H G
      (((v : Nat) : S) • G + γ • H) = some (v, msg1, msg2) := by
  simp only [decrypt]
  rw [htn]
  have h2 : (0 : Nat) < 2 ^ 64 := by norm_num
  have hamt : (msg1 * 2 ^ 64 + v) % 2 ^ 64 = v := by
    rw [mul_comm msg1 (2 ^ 64), Nat.mul_add_mod]
    exact Nat.mod_eq_of_lt hv
  have hdiv : (msg1 * 2 ^ 64 + v) / 2 ^ 64 = msg1 := by
    rw [mul_comm msg1 (2 ^ 64), Nat.mul_add_div h2, Nat.div_eq_of_lt hv]
    omega
  rw [hamt, hdiv]
  rw [if_pos rfl]
  have hmsg2 : ((nt1 + msg2) * x + t2 * x * x + z * z * γ - (t2 * x * x + z * z * γ)) *
      env.sInv x - nt1 = msg2 := by
    have h1 : ((nt1 + msg2) * x + t2 * x * x + z * z * γ - (t2 * x * x + z * z * γ)) *
        env.sInv x - nt1 = (nt1 + msg2) * (x * env.sInv x) - nt1 := by ring
    rw [h1, hx]
    ring
  rw [hmsg2]

theorem processReq_honest {S Pt : Type} [CommRing S] [DecidableEq Pt] [AddCommGroup Pt]
    [Module S Pt] (env : RecoveryEnv S Pt) (idn seedn : Nat) (x z : S)
    (Ls Rs : List Pt) (p : Pt) (v msg1 : Nat) (msg2 : S)
    (hLs : 0 < Ls.length) (hLR : Ls.length = Rs.length)
    (htn : env.toNatRepr (((msg1 * 2 ^ 64 + v : Nat)) : S) = msg1 * 2 ^ 64 + v)
    (hv : v < 2 ^ 64) (hx : x * env.sInv x = 1) :
    processReq env
      ⟨idn, seedn, x, z,
        [((v : Nat) : S) • env.genG seedn + env.pointHash p 100 • env.genH seedn],
        Ls, Rs,
        (env.pointHash p 1 + (((msg1 * 2 ^ 64 + v : Nat)) : S)) + env.pointHash p 2 * x,
        (env.pointHash p 3 + msg2) * x + env.pointHash p 4 * x * x +
          z * z * env.pointHash p 100,
        GammaSeedM.point p⟩ =
      Except.ok (some ⟨idn, v, env.pointHash p 100, msg1, msg2⟩) := by
  unfold processReq
  rw [if_neg (by push_neg; exact ⟨by simp, hLs, hLR⟩)]
  rw [if_neg (by simp)]
  dsimp only [gammaSeedHash, Except.bind, List.headD]
  have harg : (env.pointHash p 1 + (((msg1 * 2 ^ 64 + v : Nat)) : S)) +
      env.pointHash p 2 * x - env.pointHash p 2 * x - env.pointHash p 1 =
      (((msg1 * 2 ^ 64 + v : Nat)) : S) := by ring
  rw [harg]
  rw [decrypt_honest env v msg1 msg2 (env.pointHash p 100) (env.pointHash p 3)
    (env.pointHash p 4) x z (env.genG seedn) (env.genH seedn) htn hv hx]

/-- C5: a recovery request built from a single-value range proof and the
owner's correct point-seed GammaSeed nonce recovers the original
committed value, the blinding factor `nonce.GetHashWithSalt(100)` and the
embedded message channels exactly; every request with zero or more than
one value commitment, an empty `Ls` sequence or unequal `Ls`/`Rs`
lengths, and every request whose decryption fails, is silently omitted
from the result list rather than reported as an error. -/
theorem c5_recover_amounts {S Pt : Type} [CommRing S] [DecidableEq Pt] [AddCommGroup Pt]
    [Module S Pt] (env : RecoveryEnv S Pt) :
    (∀ req : AmountRecoveryReqM S Pt,
      req.Vs.length = 0 ∨ 1 < req.Vs.length ∨ req.Ls = [] ∨
        req.Ls.length ≠ req.Rs.length →
      RecoverAmounts env [req] = Except.ok []) ∧
    (∀ (req : AmountRecoveryReqM S Pt) (p : Pt), req.nonce = GammaSeedM.point p →
      decrypt env (req.mu - env.pointHash p 2 * req.x - env.pointHash p 1)
        (env.pointHash p 100) (env.pointHash p 3) (env.pointHash p 4) req.tau_x req.x req.z
        (env.genH req.seed) (env.genG req.seed) (req.Vs.headD 0) = none →
      RecoverAmounts env [req] = Except.ok []) ∧
    (∀ (idn seedn : Nat) (x z : S) (Ls Rs : List Pt) (p : Pt) (v msg1 : Nat) (msg2 : S),
      0 < Ls.length → Ls.length = Rs.length →
      env.toNatRepr (((msg1 * 2 ^ 64 + v : Nat)) : S) = msg1 * 2 ^ 64 + v →
      v < 2 ^ 64 → x * env.sInv x = 1 →
      RecoverAmounts env
        [⟨idn, seedn, x, z,
          [((v : Nat) : S) • env.genG seedn + env.pointHash p 100 • env.genH seedn],
          Ls, Rs,
          (env.pointHash p 1 + (((msg1 * 2 ^ 64 + v : Nat)) : S)) + env.pointHash p 2 * x,
          (env.pointHash p 3 + msg2) * x + env.pointHash p 4 * x * x +
            z * z * env.pointHash p 100,
          GammaSeedM.point p⟩] =
        Except.ok [⟨idn, v, env.pointHash p 100, msg1, msg2⟩]) := by
  refine ⟨?_, ?_, ?_⟩
  · intro req h
    rw [recoverAmounts_singleton]
    have hskip : processReq env req = Except.ok none := by
      refine processReq_skip env req ?_
      rcases h with h | h | h | h
      · exact Or.inl (Or.inl h)
      · exact Or.inr (by omega)
      · exact Or.inl (Or.inr (by simp [h]))
      · exact Or.inl (Or.inr (by intro hc; exact h hc.2))
    rw [hskip]
    rfl
  · intro req p hnonce hdec
    rw [recoverAmounts_singleton]
    by_cases c1 : req.Vs.length = 0 ∨ ¬ (req.Ls.length > 0 ∧ req.Ls.length = req.Rs.length)
    · rw [processReq_skip env req (Or.inl c1)]
      rfl
    · by_cases c2 : req.Vs.length = 1
      · have hp : processReq env req = Except.ok none := by
          unfold processReq
          rw [if_neg c1]
          rw [if_neg (by simp [c2])]
          rw [hnonce]
          simp only [gammaSeedHash, exbind_ok]
          rw [hdec]
        rw [hp]
        rfl
      · rw [processReq_skip env req (Or.inr c2)]
        rfl
  · intro idn seedn x z Ls Rs p v msg1 msg2 hLs hLR htn hv hx
    rw [recoverAmounts_singleton]
    rw [processReq_honest env idn seedn x z Ls Rs p v msg1 msg2 hLs hLR htn hv hx]
    rfl

/-- C5 witness: the recovery theorem's exact-recovery clause evaluated at
a concrete honest request (value 5, message channels 3 and 11, challenge
x = 1, z = 2), and its omission clause at a two-commitment request. -/
theorem c5_recover_witness :
    RecoverAmounts wRecEnv
      [⟨9, 0, 1, 2,
        [((5 : Nat) : Int) • wRecEnv.genG 0 + wRecEnv.pointHash 0 100 • wRecEnv.genH 0],
        [7], [8],
        (wRecEnv.pointHash 0 1 + (((3 * 2 ^ 64 + 5 : Nat)) : Int)) + wRecEnv.pointHash 0 2 * 1,
        (wRecEnv.pointHash 0 3 + 11) * 1 + wRecEnv.pointHash 0 4 * 1 * 1 +
          2 * 2 * wRecEnv.pointHash 0 100,
        GammaSeedM.point 0⟩] =
      Except.ok [⟨9, 5, wRecEnv.pointHash 0 100, 3, 11⟩] ∧
    RecoverAmounts wRecEnv
      [⟨1, 0, 1, 2, [5, 6], [7], [8], 0, 0, GammaSeedM.point 0⟩] = Except.ok [] := by
  constructor
  · exact (c5_recover_amounts wRecEnv).2.2 9 0 1 2 [7] [8] 0 5 3 11
      (by decide) (by decide) (by decide) (by decide) (by decide)
  · exact (c5_recover_amounts wRecEnv).1
      ⟨1, 0, 1, 2, [5, 6], [7], [8], 0, 0, GammaSeedM.point 0⟩ (by right; left; decide)

end Bulletproofs
